import Mathlib

/-!
Verification development for the SmartTestCase-AI repository.

The definitions below are a shallow embedding of the JavaScript sources
`src/AITestAgent/src/utils/testCaseParser.js`,
`src/AITestAgent/src/api/testCaseApi.js` and
`src/AITestAgent/src/api/storage.js`.
Strings are modelled as Lean `String` (lists of characters); JavaScript
regular-expression operations are transcribed as explicit scanning
functions with the exact greedy/lazy semantics of the concrete patterns
appearing in the source.  Scanners that can jump forward carry the scanned
text itself as a structural fuel list (each step consumes at least one
input character, so the fuel never runs out); every definition is
structurally recursive and kernel-executable.
-/

namespace SmartTestCase

/-- Character codes used to avoid apostrophe/backtick/brace literals. -/
def aposC : Char := Char.ofNat 39

def backtickC : Char := Char.ofNat 96

def lbraceC : Char := Char.ofNat 123

def rbraceC : Char := Char.ofNat 125

/-- JavaScript `\s` (whitespace) for the ASCII range relevant here. -/
def isJsWs (c : Char) : Bool :=
  c = ' ' || c = '\t' || c = '\n' || c = '\r' || c = Char.ofNat 11 || c = Char.ofNat 12

/-- JavaScript `\d`. -/
def isDigitC (c : Char) : Bool :=
  '0' ≤ c && c ≤ '9'

/-- JavaScript `String.prototype.trim` on a character list. -/
def jsTrim (l : List Char) : List Char :=
  ((l.dropWhile isJsWs).reverse.dropWhile isJsWs).reverse

/-- Trim for `String`. -/
def jsTrimS (s : String) : String :=
  String.mk (jsTrim s.data)

/-- Case-insensitive prefix test (ASCII lowering, as the inputs here are ASCII). -/
def isPreCI : List Char → List Char → Bool
  | [], _ => true
  | _ :: _, [] => false
  | p :: ps, c :: cs => (p.toLower = c.toLower) && isPreCI ps cs

/-- Case-sensitive prefix test. -/
def isPre (p l : List Char) : Bool :=
  List.isPrefixOf p l

/-- Maximal run of JS whitespace dropped (regex `\s*`, greedy). -/
def dropWs (l : List Char) : List Char :=
  l.dropWhile isJsWs

/-- Match `\d+` (maximal, at least one digit) and return the rest. -/
def dropDigits1 : List Char → Option (List Char)
  | [] => none
  | c :: rest => if isDigitC c then some (rest.dropWhile isDigitC) else none

/-- De-duplication keeping the first occurrence (JS `[...new Set(xs)]`). -/
def dedupFirst : List String → List String → List String
  | _, [] => []
  | seen, x :: xs =>
    if seen.contains x then dedupFirst seen xs
    else x :: dedupFirst (x :: seen) xs

/-- JS string truthiness `x || d` for a possibly missing string field. -/
def strOr (o : Option String) (d : String) : String :=
  match o with
  | none => d
  | some s => if s = "" then d else s

/-- JS truthiness of a possibly missing string field. -/
def strTruthy (o : Option String) : Bool :=
  match o with
  | none => false
  | some s => s ≠ ""

/-- List-indexed `x[i] || d` for JS array indexing with default. -/
def getOr (l : List String) (i : Nat) (d : String) : String :=
  match l.get? i with
  | some s => if s = "" then d else s
  | none => d

/-! ### `extractKeywords` (testCaseApi.js lines 507-533) -/

/-- Punctuation class of the regex
`[.,\/#!$%\^&\*;:\x7b\x7d=\-_\x60~()]` in `extractKeywords`. -/
def isKwPunct (c : Char) : Bool :=
  c = '.' || c = ',' || c = '/' || c = '#' || c = '!' || c = '$' || c = '%' ||
  c = '^' || c = '&' || c = '*' || c = ';' || c = ':' || c = lbraceC ||
  c = rbraceC || c = '=' || c = '-' || c = '_' || c = backtickC || c = '~' ||
  c = '(' || c = ')'

/-- Regex replace of `\s\x7b2,\x7d` by a single space: every maximal run of
two or more whitespace characters collapses to one space; single whitespace
characters are left unchanged.  The first argument is structural fuel (the
scanned text itself at the call site): every step consumes at least one
input character, so the fuel never runs out. -/
def collapseWs : List Char → List Char → List Char
  | _, [] => []
  | [], l => l
  | _ :: fuel, c :: rest =>
    if isJsWs c then
      match rest with
      | c2 :: _ =>
        if isJsWs c2 then
          ' ' :: collapseWs fuel (rest.dropWhile isJsWs)
        else c :: collapseWs fuel rest
      | [] => [c]
    else c :: collapseWs fuel rest

/-- Stop-word list copied verbatim from `extractKeywords`. -/
def commonWords : List String :=
  ["a", "an", "the", "and", "or", "but", "is", "are", "was", "were",
   "be", "been", "being", "to", "of", "for", "with", "by", "about",
   "against", "between", "into", "through", "during", "before", "after",
   "above", "below", "from", "up", "down", "in", "out", "on", "off",
   "over", "under", "again", "further", "then", "once", "here", "there",
   "when", "where", "why", "how", "all", "any", "both", "each", "few",
   "more", "most", "other", "some", "such", "no", "nor", "not", "only",
   "own", "same", "so", "than", "too", "very", "s", "t", "can", "will",
   "just", "don", "should", "now", "that", "this", "these", "those"]

/-- Embedding of `extractKeywords(text)`: lowercase, strip punctuation,
collapse whitespace runs, split on single spaces, keep words longer than 3
characters that are not stop words, de-duplicate keeping first occurrences. -/
def extractKeywords (text : String) : List String :=
  let lowered := text.data.map Char.toLower
  let noPunct := lowered.filter (fun c => !(isKwPunct c))
  let cleanText := collapseWs noPunct noPunct
  let words := (cleanText.splitOn ' ').map String.mk
  let keywords := words.filter (fun w => w.length > 3 && !(commonWords.contains w))
  dedupFirst [] keywords

/-! ### Payload and `generateFallbackTestCases` (testCaseApi.js lines 420-502) -/

/-- Request payload; fields are `Option String` so that a missing field and
an empty field are both representable (JS treats both as falsy). -/
structure Payload where
  description : Option String
  acceptance_criteria : Option String
  deriving DecidableEq, Repr

/-- Filter on trimmed acceptance-criteria lines (lines 455-471 of
testCaseApi.js). -/
def acLineKeep (line : String) : Bool :=
  let l := line.data
  if line = "" then false
  else if line = "-" || line = "*" || line = "•" || line = ">" || line = "#" then false
  else if line.length ≤ 2 && !(l.any fun c => c.isAlpha || isDigitC c) then false
  else if (isPre ['-'] l || isPre ['*'] l || isPre ['•'] l) && line.length ≤ 3 then false
  else true

/-- JS `line.split(' ').slice(-3).join(' ')`. -/
def lastThreeWords (line : String) : String :=
  let parts := (line.data.splitOn ' ').map String.mk
  String.intercalate " " (parts.drop (parts.length - 3))

/-- The generic first test-case block pushed by `generateFallbackTestCases`. -/
def fallbackBlock1 (feature kw1 : String) : String :=
  "Test Case 1: Verify " ++ feature ++ " Basic Functionality\n" ++
  "Description: This test case verifies the basic functionality described in the user story.\n\n" ++
  "Steps:\n" ++
  "1. Log in to the system as a user with appropriate permissions\n" ++
  "2. Navigate to the " ++ feature ++ " section\n" ++
  "3. Verify that the " ++ kw1 ++ " is available\n" ++
  "4. Attempt to use the " ++ feature ++ " with valid inputs\n" ++
  "5. Verify the results match the expected behavior\n\n" ++
  "Expected Results:\n" ++
  "- The " ++ feature ++ " is accessible to authorized users\n" ++
  "- The " ++ kw1 ++ " works as described in the user story\n" ++
  "- The system displays appropriate feedback after the action is completed\n"

/-- One acceptance-criteria test-case block (index is the zero-based position
of the surviving line). -/
def fallbackAcBlock (feature : String) (index : Nat) (line : String) : String :=
  let acKeywords := extractKeywords line
  let acFeature := getOr acKeywords 0 feature
  let condition := getOr acKeywords 1 "condition"
  let behavior := lastThreeWords line
  let testCaseTitle := "Verify " ++ acFeature ++ " " ++ condition ++ " " ++ behavior
  "\nTest Case " ++ toString (index + 2) ++ ": " ++ testCaseTitle ++ "\n" ++
  "Description: This test case verifies the acceptance criteria: \"" ++ line ++ "\"\n\n" ++
  "Steps:\n" ++
  "1. Log in to the system as a user with appropriate permissions\n" ++
  "2. Navigate to the " ++ acFeature ++ " section\n" ++
  "3. Set up the test conditions for testing \"" ++ line ++ "\"\n" ++
  "4. Perform the actions necessary to test this specific acceptance criteria\n" ++
  "5. Verify that the " ++ acFeature ++ " behaves as expected\n\n" ++
  "Expected Results:\n" ++
  "- The acceptance criteria \"" ++ line ++ "\" is fully satisfied\n" ++
  "- The " ++ acFeature ++ " behaves correctly under the test conditions\n" ++
  "- The system provides appropriate feedback or results\n"

/-- The `testCases` array built by `generateFallbackTestCases` before the
final `join('\n')`.  (The source also computes a `title` constant from the
first description line at lines 427-428; it is never used in the emitted
text, so it has no counterpart here.) -/
def generateFallbackBlocks (payload : Payload) : List String :=
  let description := strOr payload.description ""
  let acceptanceCriteria := strOr payload.acceptance_criteria ""
  let keywords := extractKeywords (description ++ " " ++ acceptanceCriteria)
  let feature := getOr keywords 0 "feature"
  let kw1 := getOr keywords 1 "functionality"
  let acLines := (acceptanceCriteria.data.splitOn '\n')
    |>.map (fun l => String.mk (jsTrim l)) |>.filter acLineKeep
  fallbackBlock1 feature kw1 ::
    (acLines.enum.map fun p => fallbackAcBlock feature p.1 p.2)

/-- Embedding of `generateFallbackTestCases(payload)` (the blocks joined
with a single newline, line 501 of testCaseApi.js). -/
def generateFallbackTestCases (payload : Payload) : String :=
  String.intercalate "\n" (generateFallbackBlocks payload)

/-! ### TestCase and `formatTestCases` (testCaseParser.js lines 198-229) -/

/-- Structured test case produced by the parser in testCaseParser.js. -/
structure TestCase where
  title : String
  steps : List String
  expectedResult : String
  deriving DecidableEq, Repr

/-- Numbered step line of the text and markdown modes (index first, as
produced by `List.enum`). -/
def numberedStep (p : Nat × String) : String :=
  "   " ++ toString (p.1 + 1) ++ ". " ++ p.2

/-- One markdown-mode entry of `formatTestCases`. -/
def formatTestCaseMarkdown (p : Nat × TestCase) : String :=
  let steps := String.intercalate "\n" (p.2.steps.enum.map numberedStep)
  "## " ++ toString (p.1 + 1) ++ ". " ++ p.2.title ++ "\n\n### Test Steps:\n" ++
    steps ++ "\n\n### Expected Result:\n" ++ p.2.expectedResult

/-- One html-mode entry of `formatTestCases`; the interior whitespace is the
literal content of the template string in the source (note: no escaping). -/
def formatTestCaseHtml (p : Nat × TestCase) : String :=
  let steps := String.join (p.2.steps.map fun step => "<li>" ++ step ++ "</li>")
  "<div class=\"test-case\">\n          <h3>" ++ toString (p.1 + 1) ++ ". " ++
    p.2.title ++ "</h3>\n          <h4>Test Steps:</h4>\n          <ol>" ++
    steps ++ "</ol>\n          <h4>Expected Result:</h4>\n          <p>" ++
    p.2.expectedResult ++ "</p>\n        </div>"

/-- One text-mode (default) entry of `formatTestCases`. -/
def formatTestCaseText (p : Nat × TestCase) : String :=
  let steps := String.intercalate "\n" (p.2.steps.enum.map numberedStep)
  toString (p.1 + 1) ++ ". " ++ p.2.title ++ "\n   Test Steps:\n" ++ steps ++
    "\n   Expected Result: " ++ p.2.expectedResult

/-- Embedding of `formatTestCases(testCases, format)`.  The first argument is
`Option` so that the JS `null`/`undefined` argument is representable; the
guard returns the empty string when the argument is missing or empty. -/
def formatTestCases (testCases : Option (List TestCase)) (format : String) : String :=
  match testCases with
  | none => ""
  | some tcs =>
    if tcs.isEmpty then ""
    else if format = "markdown" then
      String.intercalate "\n\n" (tcs.enum.map formatTestCaseMarkdown)
    else if format = "html" then
      String.join (tcs.enum.map formatTestCaseHtml)
    else
      String.intercalate "\n\n" (tcs.enum.map formatTestCaseText)

/-! ### Markdown parsing strategy (`parseMarkdownTestCases`, testCaseParser.js lines 66-131)

Each JS regex is transcribed as a scanner with the standard greedy/lazy
backtracking semantics of the concrete pattern. -/

/-- Lookahead of the prose-stripping regex on line 70:
`(?=\*\*Test Case|\d+\.\s*Title:)`. -/
def mdStripLookaheadAt (l : List Char) : Bool :=
  isPre "**Test Case".data l ||
  (match dropDigits1 l with
   | some ('.' :: r) => isPre "Title:".data (dropWs r)
   | _ => false)

/-- Lazy-prefix removal `s.replace(/^.*?(?=...)/s, '')`: drop the shortest
prefix ending where the lookahead first holds; if the lookahead holds
nowhere, the string is unchanged. -/
def mdStripGo : List Char → Option (List Char)
  | [] => none
  | c :: rest =>
    if mdStripLookaheadAt (c :: rest) then some (c :: rest)
    else mdStripGo rest

/-- Match `\d+:` (digit run then a colon), returning the rest. -/
def matchNumColon (l : List Char) : Option (List Char) :=
  match dropDigits1 l with
  | some (':' :: rest) => some rest
  | _ => none

/-- Separator of the block split on line 73:
`\*\*Test Case \d+:|##\s*Test Case \d+:|^\d+\.\s*Title:` (flag `m`, so the
third alternative needs a line start, tracked by the caller). -/
def mdSplitMark (atLineStart : Bool) (l : List Char) : Option (List Char) :=
  if isPre "**Test Case ".data l then matchNumColon (l.drop 12)
  else if isPre "##".data l then
    (let r := dropWs (l.drop 2)
     if isPre "Test Case ".data r then matchNumColon (r.drop 10) else none)
  else if atLineStart then
    match dropDigits1 l with
    | some ('.' :: r) =>
      (let r2 := dropWs r
       if isPre "Title:".data r2 then some (r2.drop 6) else none)
    | _ => none
  else none

/-- `String.prototype.split` on the separator above. -/
def mdSplitGo : List Char → Bool → List Char → List Char → List (List Char)
  | _, _, acc, [] => [acc.reverse]
  | [], _, acc, l => [acc.reverse ++ l]
  | _ :: fuel, atLS, acc, c :: rest =>
    match mdSplitMark atLS (c :: rest) with
    | some after => acc.reverse :: mdSplitGo fuel false [] after
    | none => mdSplitGo fuel (c = '\n') (c :: acc) rest

/-- Title matcher on line 84: `/^([^*#\n]+)(?:\*\*|\n|$)/`.  The greedy char
class must be followed by `**`, a newline or the end of the block, otherwise
the whole match fails (shorter runs end in a class character, so
backtracking cannot save it). -/
def mdTitleRaw (l : List Char) : Option (List Char) :=
  let r := l.takeWhile fun c => !(c = '*' || c = '#' || c = '\n')
  if r.isEmpty then none
  else match l.drop r.length with
    | [] => some r
    | '\n' :: _ => some r
    | '*' :: '*' :: _ => some r
    | _ => none

/-- Title cleanup `title.replace(/^\d+\.\s*/, '')`. -/
def stripNumDotWs (l : List Char) : List Char :=
  match dropDigits1 l with
  | some ('.' :: r) => dropWs r
  | _ => l

/-- Title cleanup `title.replace(/^Title:\s*/, '')`. -/
def stripTitlePre (l : List Char) : List Char :=
  if isPre "Title:".data l then dropWs (l.drop 6) else l

/-- Head alternation `(?:Test Steps?|Steps?)` (and the generic strategy's
`(?:Steps?|Test Steps?)`, which has the same semantics because the two
families start with different letters), case-insensitive; returns the
suffix after the matched header words. -/
def stepsHeadAt (l : List Char) : Option (List Char) :=
  if isPreCI "test steps".data l then some (l.drop 10)
  else if isPreCI "test step".data l then some (l.drop 9)
  else if isPreCI "steps".data l then some (l.drop 5)
  else if isPreCI "step".data l then some (l.drop 4)
  else none

/-- Leftmost occurrence of the steps header in the text. -/
def findStepsHead : List Char → Option (List Char)
  | [] => none
  | c :: rest =>
    match stepsHeadAt (c :: rest) with
    | some after => some after
    | none => findStepsHead rest

/-- Regex tail `:?\s*`: optional colon, then greedy whitespace. -/
def consColonWs (l : List Char) : List Char :=
  match l with
  | ':' :: r => dropWs r
  | _ => dropWs l

/-- Leftmost case-insensitive occurrence of `pat`; returns the characters
before the match and the suffix starting at the match. -/
def findCIGo : List Char → List Char → List Char → Option (List Char × List Char)
  | pat, acc, l =>
    match l with
    | [] => if isPreCI pat [] then some (acc.reverse, []) else none
    | c :: rest =>
      if isPreCI pat (c :: rest) then some (acc.reverse, c :: rest)
      else findCIGo pat (c :: acc) rest

/-- Full-line header test `^(?:Test Steps?|Steps?):?$` (case-insensitive). -/
def isStepsHeaderLine (ln : List Char) : Bool :=
  let lo := String.mk (ln.map Char.toLower)
  ["test steps", "test steps:", "test step", "test step:",
   "steps", "steps:", "step", "step:"].contains lo

/-- Full-line header test `^Expected Result:?$` (case-insensitive). -/
def isExpResHeaderLine (ln : List Char) : Bool :=
  let lo := String.mk (ln.map Char.toLower)
  ["expected result", "expected result:"].contains lo

/-- Bullet stripper with tab, `^[•\-\*\t\d]+[\.\)]\s*` (markdown strategy
line 103 and generic strategy line 169). -/
def isBulletTabC (c : Char) : Bool :=
  c = '•' || c = '-' || c = '*' || c = '\t' || isDigitC c

def stripBulletTab (l : List Char) : List Char :=
  let run := l.takeWhile isBulletTabC
  if run.isEmpty then l
  else match l.drop run.length with
    | '.' :: r => dropWs r
    | ')' :: r => dropWs r
    | _ => l

/-- Steps extraction of the markdown strategy (lines 95-108): regex
`(?:Test Steps?|Steps?):?\s*([\s\S]*?)(?:Expected Result|$)` (flag `i`),
then line-wise cleanup where steps that clean to nothing are dropped. -/
def mdSteps (block : List Char) : List String :=
  match findStepsHead block with
  | none => []
  | some afterHead =>
    let secStart := consColonWs afterHead
    let cap := match findCIGo "expected result".data [] secStart with
      | some (before, _) => before
      | none => secStart
    let stepLines := ((cap.splitOn '\n').map jsTrim).filter fun ln =>
      !ln.isEmpty && !isStepsHeaderLine ln
    stepLines.foldr (fun ln acc =>
      let cleaned := stripBulletTab ln
      if cleaned.isEmpty then acc else String.mk cleaned :: acc) []

/-- Lookahead alternative `\n\s*\n\s*\d+\.` of the expected-result regex:
a newline whose following whitespace run contains another newline and is
immediately followed by a digit run and a dot. -/
def blankThenDigitDot (l : List Char) : Bool :=
  match l with
  | '\n' :: rest =>
    let run := rest.takeWhile isJsWs
    if run.any (fun c => c = '\n') then
      match dropDigits1 (rest.drop run.length) with
      | some ('.' :: _) => true
      | _ => false
    else false
  | _ => false

/-- Lookahead alternative `\n\s*\n\s*\*\*`. -/
def blankThenStars (l : List Char) : Bool :=
  match l with
  | '\n' :: rest =>
    let run := rest.takeWhile isJsWs
    run.any (fun c => c = '\n') && isPre "**".data (rest.drop run.length)
  | _ => false

/-- Stop condition of the lazy capture in the expected-result regex
(line 112): `(?=\*\*Test Case|\*\*\d+\.|\n\s*\n\s*\d+\.|\n\s*\n\s*\*\*|$)`. -/
def mdResultStopAt (l : List Char) : Bool :=
  isPreCI "**test case".data l ||
  (isPre "**".data l &&
    (match dropDigits1 (l.drop 2) with
     | some ('.' :: _) => true
     | _ => false)) ||
  blankThenDigitDot l || blankThenStars l

/-- Lazy capture up to the first stop position (or the end of the text). -/
def takeUntilMdStop : List Char → List Char → List Char
  | acc, [] => acc.reverse
  | acc, c :: rest =>
    if mdResultStopAt (c :: rest) then acc.reverse
    else takeUntilMdStop (c :: acc) rest

/-- Expected-result extraction of the markdown strategy (lines 111-119). -/
def mdExpectedResult (block : List Char) : List Char :=
  match findCIGo "expected result".data [] block with
  | none => []
  | some (_, atMatch) =>
    let secStart := consColonWs (atMatch.drop 15)
    let cap := takeUntilMdStop [] secStart
    let lines := (((jsTrim cap).splitOn '\n').map jsTrim).filter fun ln =>
      !ln.isEmpty && !isExpResHeaderLine ln
    List.intercalate ['\n'] lines

/-- Per-block record construction of `parseMarkdownTestCases` (lines 78-128):
blocks that trim to nothing are skipped, and a record is pushed only when
the cleaned title is non-empty. -/
def parseMarkdownBlock (block0 : List Char) : Option TestCase :=
  let block := jsTrim block0
  if block.isEmpty then none
  else
    let title := match mdTitleRaw block with
      | some r => stripTitlePre (stripNumDotWs (jsTrim r))
      | none => []
    if title.isEmpty then none
    else some ⟨String.mk title, mdSteps block, String.mk (mdExpectedResult block)⟩

/-- Embedding of `parseMarkdownTestCases(testCasesString)`. -/
def parseMarkdownTestCases (s : String) : List TestCase :=
  let cleaned := (mdStripGo s.data).getD s.data
  let blocks := mdSplitGo cleaned true [] cleaned
  let startIdx := if (jsTrim (blocks.headD [])).isEmpty then 1 else 0
  (blocks.drop startIdx).filterMap parseMarkdownBlock

/-! ### Structured-regex strategy (testCaseParser.js lines 25-48)

Pattern (case-sensitive, flag `g`):
`(\d+\.\s*Title:\s*)(.*?)(\n\s*-\s*(?:Test )?Steps?:)([\s\S]*?)(\n\s*-\s*Expected Result:)([\s\S]*?)(?=\n\d+\.\s*Title:|\s*$)` -/

/-- Continuation `\s*-\s*(?:Test )?Steps?:` matched after a newline;
returns the suffix after the colon.  The optional `Test ` cannot be
backtracked away successfully: if it is present but no `Step` follows,
re-reading the text without it starts at the letter T and fails anyway. -/
def rxStepsContAfterNl (l : List Char) : Option (List Char) :=
  match dropWs l with
  | '-' :: r2 =>
    let r3 := dropWs r2
    let r4 := if isPre "Test ".data r3 then r3.drop 5 else r3
    if isPre "Steps:".data r4 then some (r4.drop 6)
    else if isPre "Step:".data r4 then some (r4.drop 5)
    else none
  | _ => none

/-- Continuation `\s*-\s*Expected Result:` matched after a newline. -/
def rxERContAfterNl (l : List Char) : Option (List Char) :=
  match dropWs l with
  | '-' :: r2 =>
    (let r3 := dropWs r2
     if isPre "Expected Result:".data r3 then some (r3.drop 16) else none)
  | _ => none

/-- Lazy scan (for `[\s\S]*?` followed by a `\n...` group): first newline
whose following text matches the continuation.  Returns the captured
characters before that newline and the suffix after the continuation. -/
def rxScanForNlCont : (List Char → Option (List Char)) → List Char → List Char →
    Option (List Char × List Char)
  | _, _, [] => none
  | cont, acc, c :: rest =>
    if c = '\n' then
      match cont rest with
      | some after => some (acc.reverse, after)
      | none => rxScanForNlCont cont ('\n' :: acc) rest
    else rxScanForNlCont cont (c :: acc) rest

/-- Lookahead `(?=\n\d+\.\s*Title:|\s*$)` terminating the last capture. -/
def rxEndStopAt (l : List Char) : Bool :=
  (match l with
   | '\n' :: r =>
     (match dropDigits1 r with
      | some ('.' :: r2) => isPre "Title:".data (dropWs r2)
      | _ => false)
   | _ => false) || l.all isJsWs

/-- Lazy capture up to the first position satisfying `rxEndStopAt`;
returns the capture and the suffix at the stop (resuming point of the
global scan, since the lookahead consumes nothing). -/
def rxTakeUntilStop : List Char → List Char → List Char × List Char
  | acc, [] => (acc.reverse, [])
  | acc, c :: rest =>
    if rxEndStopAt (c :: rest) then (acc.reverse, c :: rest)
    else rxTakeUntilStop (c :: acc) rest

/-- Bullet stripper without tab, `^[•\-\*\d]+[\.\)]\s*` (line 40). -/
def isBulletC (c : Char) : Bool :=
  c = '•' || c = '-' || c = '*' || isDigitC c

def stripBullet (l : List Char) : List Char :=
  let run := l.takeWhile isBulletC
  if run.isEmpty then l
  else match l.drop run.length with
    | '.' :: r => dropWs r
    | ')' :: r => dropWs r
    | _ => l

/-- Attempted match of the full structured pattern at the current position.
Group 1 ends with a greedy `\s*` and group 2 `(.*?)` cannot cross a
newline, so the title either runs from the end of the whitespace after
`Title:` to the first newline (tried first), or — by backtracking the
greedy `\s*` over a newline it swallowed — is empty with the steps
continuation starting inside that whitespace run. -/
def rxMatchAt (l : List Char) : Option (TestCase × List Char) :=
  match dropDigits1 l with
  | some ('.' :: r1) =>
    let r2 := dropWs r1
    if isPre "Title:".data r2 then
      let afterT := r2.drop 6
      let w := afterT.takeWhile isJsWs
      let afterW := afterT.drop w.length
      let cand1 : Option (List Char × List Char) :=
        (let t := afterW.takeWhile fun c => c ≠ '\n'
         match afterW.drop t.length with
         | '\n' :: rest => (rxStepsContAfterNl rest).map fun a => (t, a)
         | _ => none)
      let candW : Option (List Char × List Char) :=
        if w.any (fun c => c = '\n') then (rxStepsContAfterNl afterW).map fun a => ([], a)
        else none
      match cand1.orElse (fun _ => candW) with
      | some (titleRaw, afterSteps) =>
        (match rxScanForNlCont rxERContAfterNl [] afterSteps with
         | some (stepsRaw, afterER) =>
           let er := rxTakeUntilStop [] afterER
           let steps := ((((jsTrim stepsRaw).splitOn '\n').map jsTrim).filter
             fun ln => !ln.isEmpty).map fun ln => String.mk (stripBullet ln)
           some (⟨String.mk (jsTrim titleRaw), steps, String.mk (jsTrim er.1)⟩, er.2)
         | none => none)
      | none => none
    else none
  | _ => none

/-- Iterated global matching (`while ((match = regex.exec(...)) !== null)`). -/
def rxScanAll : List Char → List Char → List TestCase
  | _, [] => []
  | [], _ => []
  | _ :: fuel, c :: rest =>
    match rxMatchAt (c :: rest) with
    | some (tc, after) => tc :: rxScanAll fuel after
    | none => rxScanAll fuel rest

/-- Embedding of the structured-regex strategy in `parseTestCases`. -/
def regexStrategyTestCases (s : String) : List TestCase :=
  rxScanAll s.data s.data

/-! ### Generic-paragraph strategy (`extractGenericTestCases`, lines 138-190) -/

/-- Index of the last newline in a whitespace run. -/
def lastNlIdx (run : List Char) : Option Nat :=
  (run.enum.filterMap fun p => if p.2 = '\n' then some p.1 else none).getLast?

/-- Paragraph split on `\n\s*\n` (line 142): a separator is a newline
followed by a whitespace run containing at least one more newline; the
greedy `\s*` backtracks so that the separator ends at the last newline of
that run. -/
def splitBlank : List Char → List Char → List Char → List (List Char)
  | _, acc, [] => [acc.reverse]
  | [], acc, l => [acc.reverse ++ l]
  | _ :: fuel, acc, c :: rest =>
    if c = '\n' then
      match lastNlIdx (rest.takeWhile isJsWs) with
      | some i => acc.reverse :: splitBlank fuel [] (rest.drop (i + 1))
      | none => splitBlank fuel ('\n' :: acc) rest
    else splitBlank fuel (c :: acc) rest

/-- Conversational-preamble skip `^(Sure!|Here are|I'll create|Based on)/i`
(line 149). -/
def genIntroSkip (block : List Char) : Bool :=
  isPreCI "sure!".data block || isPreCI "here are".data block ||
  isPreCI ("i" ++ String.mk [aposC] ++ "ll create").data block ||
  isPreCI "based on".data block

/-- Optional prefix `\d+\.\s*` of the generic title regex. -/
def stripNumDotWsOpt (l : List Char) : Option (List Char) :=
  match dropDigits1 l with
  | some ('.' :: r) => some (dropWs r)
  | _ => none

/-- Optional prefix `Test Case:?\s*` (case-insensitive). -/
def stripTestCaseOpt (l : List Char) : Option (List Char) :=
  if isPreCI "test case".data l then some (consColonWs (l.drop 9)) else none

/-- Title regex `/^(?:\d+\.\s*)?(?:Test Case:?\s*)?([^\n]+)/i` with its
backtracking order over the two optional groups. -/
def takeLine1 (l : List Char) : Option (List Char) :=
  let r := l.takeWhile fun c => c ≠ '\n'
  if r.isEmpty then none else some r

def genTitleRaw (l : List Char) : Option (List Char) :=
  let withOpt2 : List Char → Option (List Char) := fun m =>
    match stripTestCaseOpt m with
    | some m2 => (takeLine1 m2).orElse fun _ => takeLine1 m
    | none => takeLine1 m
  match stripNumDotWsOpt l with
  | some l1 => (withOpt2 l1).orElse fun _ => withOpt2 l
  | none => withOpt2 l

/-- Steps extraction of the generic strategy (lines 163-170): regex
`(?:Steps?|Test Steps?):?\s*([\s\S]*?)(?:Expected Result|$)` (flag `i`);
the capture is trimmed before the split, and steps that clean to nothing
are kept. -/
def genSteps (block : List Char) : List String :=
  match findStepsHead block with
  | none => []
  | some afterHead =>
    let secStart := consColonWs afterHead
    let cap := match findCIGo "expected result".data [] secStart with
      | some (before, _) => before
      | none => secStart
    ((((jsTrim cap).splitOn '\n').map jsTrim).filter
      (fun ln => !ln.isEmpty && !isStepsHeaderLine ln)).map
      fun ln => String.mk (stripBulletTab ln)

/-- Expected-result extraction of the generic strategy (lines 173-176):
regex `/Expected Result:?\s*([\s\S]*?)$/i`. -/
def genExpectedResult (block : List Char) : List Char :=
  match findCIGo "expected result".data [] block with
  | none => []
  | some (_, atMatch) => jsTrim (consColonWs (atMatch.drop 15))

/-- Per-paragraph record construction (lines 144-186): sentinel values are
substituted when steps or expected results were not found. -/
def genBlockRecord (block0 : List Char) : Option TestCase :=
  let block := jsTrim block0
  if block.isEmpty then none
  else if genIntroSkip block then none
  else
    let title := match genTitleRaw block with
      | some r => jsTrim r
      | none => []
    if title.isEmpty then none
    else
      let steps := genSteps block
      let er := genExpectedResult block
      some ⟨String.mk title,
        (if steps.isEmpty then ["No specific steps provided"] else steps),
        (if er.isEmpty then "No specific expected result provided" else String.mk er)⟩

/-- Embedding of `extractGenericTestCases(testCasesString)`. -/
def extractGenericTestCases (s : String) : List TestCase :=
  (splitBlank s.data [] s.data).filterMap genBlockRecord

/-! ### The cascade (`parseTestCases`, lines 10-59) -/

/-- Embedding of `parseTestCases(testCasesString)`: the guard returns an
empty list for an empty (falsy) string; otherwise the markdown strategy,
then the structured-regex strategy, then the generic strategy, with the
first non-empty result returned. -/
def parseTestCases (s : String) : List TestCase :=
  if s = "" then []
  else
    let markdownTestCases := parseMarkdownTestCases s
    if !markdownTestCases.isEmpty then markdownTestCases
    else
      let testCases := regexStrategyTestCases s
      if testCases.isEmpty then extractGenericTestCases s
      else testCases

/-! ### Job orchestration (testCaseApi.js lines 61-269, storage.js)

The Forge storage adapter (`storeJob`/`getJob`/`updateJob` in storage.js)
is an unconditional key-value `set`/`get` on the key `job_$\x7bjobId\x7d`;
since every operation below touches a single job key, the store is
modelled as the `Option Job` value held at that key.  Wall-clock reads
(`Date.now()`) become explicit `Nat` arguments. -/

/-- A test-case object as produced by the backend or by the canned
degraded outputs in `generateDirectTestCases` (fields may be absent). -/
structure TCObj where
  title : Option String
  description : Option String
  steps : Option (List String)
  expected_results : Option (List String)
  deriving DecidableEq, Repr

/-- Values carried in `result.test_cases` and in a job's `result`: the
backend returns either a raw string or structured objects. -/
inductive TCVal where
  | strVal (s : String)
  | objVal (tcs : List TCObj)
  deriving DecidableEq, Repr

/-- Job lifecycle status. -/
inductive JobStatus where
  | pending
  | processing
  | completed
  | failed
  deriving DecidableEq, Repr

/-- Job record stored in Forge storage.  Absent JS fields are `none`
(or `false` for the `timedOut` flag, whose only reads are truthiness
tests `job.timedOut || false`). -/
structure Job where
  status : JobStatus
  payload : Payload
  startTime : Nat
  timeoutAt : Nat
  result : Option TCVal
  timedOut : Bool
  error : Option String
  completionTime : Option Nat
  deriving DecidableEq, Repr

/-- Response shape of `getJobStatus` (absent keys are `none`). -/
structure StatusResponse where
  success : Bool
  status : Option JobStatus
  result : Option TCVal
  error : Option String
  timedOut : Option Bool
  deriving DecidableEq, Repr

/-- Embedding of `startTestCaseGenerationJob(payload)` (lines 61-95).
`now` is `Date.now()` and `rand` the random id suffix; on success the
function stores the pending job (returned alongside the id — the
generation task is scheduled but not awaited, so at return time the
stored job still has status `pending`) and returns the job id. -/
def startTestCaseGenerationJob (now : Nat) (rand : String) (payload : Payload) :
    Except String (String × Job) :=
  if !(strTruthy payload.description) || !(strTruthy payload.acceptance_criteria) then
    .error "Missing required fields: description and acceptance_criteria"
  else
    let jobId := "job_" ++ toString now ++ "_" ++ rand
    let jobData : Job :=
      { status := .pending
        payload := payload
        startTime := now
        timeoutAt := now + 60000
        result := none
        timedOut := false
        error := none
        completionTime := none }
    .ok (jobId, jobData)

/-- Embedding of `getJobStatus(jobId)` (lines 100-165) as a function of the
poll time and the stored value at the job's key; returns the response and
the store after the call (the lazy-timeout branch persists an updated job
with `updateJob`, every other branch leaves the store unchanged). -/
def getJobStatus (now : Nat) (st : Option Job) : StatusResponse × Option Job :=
  match st with
  | none => (⟨false, none, none, some "Job not found", none⟩, none)
  | some job =>
    if job.status = .processing && job.timeoutAt ≠ 0 && now > job.timeoutAt then
      let fallbackTestCases := TCVal.strVal (generateFallbackTestCases job.payload)
      let job' : Job :=
        { job with
          status := .completed
          result := some fallbackTestCases
          timedOut := true
          completionTime := some now }
      (⟨true, some .completed, some fallbackTestCases, none, some true⟩, some job')
    else if job.status = .completed then
      (⟨true, some .completed, job.result, none, some job.timedOut⟩, some job)
    else if job.status = .failed then
      (⟨false, some .failed, none, job.error, none⟩, some job)
    else
      (⟨true, some job.status, none, none, none⟩, some job)

/-! ### Generation client (`generateDirectTestCases`, lines 332-415) -/

/-- Observable outcome of the guarded fetch/JSON section of
`generateDirectTestCases`: a parsed 2xx response body, a non-2xx
response, or an exception thrown inside the `try` (abort, network or
JSON failure), carrying its `name` and `message`. -/
inductive FetchOutcome where
  | respOk (success : Bool) (error : Option String) (test_cases : Option TCVal)
  | respNotOk (status statusText body : String)
  | tryThrown (name msg : String)
  deriving DecidableEq, Repr

/-- Canned degraded output returned by the catch block of
`generateDirectTestCases` (lines 404-411); `msg` is the caught
`error.message`. -/
def errorTestCases (msg : String) : TCVal :=
  .objVal [⟨some "Error Generating Test Cases",
    some ("An error occurred: " ++ msg),
    some ["Check backend server is running", "Check network connectivity",
          "Review logs for details"],
    some ["Issue resolved"]⟩]

/-- Canned output for a 2xx response missing `test_cases` (lines 387-394). -/
def apiFormatErrorTestCases : TCVal :=
  .objVal [⟨some "API Response Format Error",
    some "The API response format was unexpected. Please check the backend logs.",
    some ["Contact system administrator"],
    some ["Issue resolved"]⟩]

/-- Embedding of `generateDirectTestCases(payload)` as a function of the
fetch outcome.  Errors thrown inside the `try` (non-2xx responses,
`success:false` bodies, network or JSON failures) are caught by the
function's own catch block and masked as `errorTestCases`; only an
`AbortError` (the 45s call-level timeout) is re-thrown, as
`'API request timed out'`. -/
def generateDirectTestCases (o : FetchOutcome) : Except String TCVal :=
  match o with
  | .respOk success error test_cases =>
    if success then
      match test_cases with
      | some v => .ok v
      | none => .ok apiFormatErrorTestCases
    else .ok (errorTestCases (strOr error "API request failed"))
  | .respNotOk status statusText body =>
    .ok (errorTestCases ("API request failed: " ++ status ++ " " ++ statusText ++
      "\n" ++ body))
  | .tryThrown name msg =>
    if name = "AbortError" then .error "API request timed out"
    else .ok (errorTestCases msg)

/-! ### Background task (`generateTestCasesAsync`, lines 171-269) -/

/-- Value of a parsed JSON `test_cases` property: either an array of
test-case objects, or some other JSON value (which
`formatJsonTestCases` stringifies; the stringification is carried as an
injected string). -/
inductive JsonTCVal where
  | arrVal (tcs : List TCObj)
  | otherVal (stringified : String)
  deriving DecidableEq, Repr

/-- One entry of `formatJsonTestCases` (lines 303-326). -/
def formatJsonTestCase (p : Nat × TCObj) : String :=
  let tc := p.2
  "Test Case " ++ toString (p.1 + 1) ++ ": " ++ strOr tc.title "Untitled" ++ "\n" ++
  (if strTruthy tc.description then
    "Description: " ++ strOr tc.description "" ++ "\n\n" else "") ++
  (match tc.steps with
   | some steps =>
     "Steps:\n" ++
       String.join (steps.enum.map fun q =>
         toString (q.1 + 1) ++ ". " ++ q.2 ++ "\n") ++ "\n"
   | none => "") ++
  (match tc.expected_results with
   | some results =>
     "Expected Results:\n" ++ String.join (results.map fun r => "- " ++ r ++ "\n")
   | none => "")

/-- Embedding of `formatJsonTestCases(testCases)` (lines 298-327). -/
def formatJsonTestCases (v : JsonTCVal) : String :=
  match v with
  | .otherVal s => s
  | .arrVal tcs => String.intercalate "\n\n" (tcs.enum.map formatJsonTestCase)

/-- The JSON massaging step of the background task (lines 195-209):
strings whose trimmed form starts with a brace are passed to `JSON.parse`
(injected as `jp`; `none` models a parse exception, `some none` a parsed
object without a truthy `test_cases` property); everything else is kept. -/
def parsedOfTestCases (jp : String → Option (Option JsonTCVal)) (v : TCVal) : TCVal :=
  match v with
  | .objVal _ => v
  | .strVal s =>
    if (jsTrim s.data).headD ' ' = lbraceC then
      match jp s with
      | none => v
      | some none => v
      | some (some j) => .strVal (formatJsonTestCases j)
    else v

/-- Atomic store write performed at lines 184-187: mark the job
`processing`, spreading the snapshot read at task start. -/
def bgMarkProcessing (job0 : Job) : Job :=
  { job0 with status := .processing }

/-- Atomic store write performed at lines 212-217 after a successful
generation: an unconditional `updateJob` that spreads the *stale*
snapshot `job0` read at task start (in particular, whatever status,
result and `timedOut` flag the stored job has acquired in the meantime
are overwritten). -/
def bgCompleteSuccess (jp : String → Option (Option JsonTCVal)) (job0 : Job)
    (v : TCVal) (now : Nat) : Job :=
  { job0 with
    status := .completed
    result := some (parsedOfTestCases jp v)
    completionTime := some now }

/-- Atomic store write performed at lines 235-241 when the generation call
threw (timeout path): unconditional `updateJob` with fallback content,
spreading the stale snapshot `job0`; `payload` is the task's own argument. -/
def bgCompleteFallback (job0 : Job) (payload : Payload) (now : Nat) : Job :=
  { job0 with
    status := .completed
    result := some (.strVal (generateFallbackTestCases payload))
    timedOut := true
    completionTime := some now }

/-- Embedding of `generateTestCasesAsync(jobId, payload)` run to completion
without interference and with a healthy store: read the job, mark it
processing, run the generation call, then write the terminal state.  The
inner catch masks a thrown generation error with fallback content; no
path writes status `failed`. -/
def generateTestCasesAsync (jp : String → Option (Option JsonTCVal))
    (outcome : FetchOutcome) (payload : Payload) (now : Nat) (st : Option Job) :
    Option Job :=
  match st with
  | none => none
  | some job0 =>
    match generateDirectTestCases outcome with
    | .ok v => some (bgCompleteSuccess jp job0 v now)
    | .error _ => some (bgCompleteFallback job0 payload now)

/-- Embedding of `generateTestCasesAsync` when the `updateJob` marking the
job `processing` throws (`StoreError`): the outer catch (lines 249-267)
re-reads the job — still unchanged, since the failed write stored
nothing — and writes status `failed` with the error message attached. -/
def generateTestCasesAsyncStoreFail (msg : String) (now : Nat) (st : Option Job) :
    Option Job :=
  match st with
  | none => none
  | some job0 =>
    some { job0 with
      status := .failed
      error := some msg
      completionTime := some now }

/-! ### Proof-side notions for the structured-regex strategy

The development below supports the universal statement of claim C7: on any
fallback output the structured-regex strategy never matches, because its
`\s*-\s*(?:Test )?Steps?:` continuation fails after every newline of the
generated text. -/

/-- Safety of all newlines inside `x` when the text continues with `k`: the
steps continuation of the structured-regex pattern fails right after every
newline of `x`. -/
def NlOk (x k : List Char) : Prop :=
  ∀ a u, x = a ++ '\n' :: u → rxStepsContAfterNl (u ++ k) = none

/-- Adjacent-characters relation: no two consecutive whitespace characters. -/
def NoTwoWs (a b : Char) : Prop :=
  isJsWs a = true → isJsWs b = false

instance decNoTwoWs : DecidableRel NoTwoWs := fun a b =>
  if h : isJsWs a = true then
    (if h2 : isJsWs b = false then isTrue (fun _ => h2)
     else isFalse (fun f => h2 (f h)))
  else isTrue (fun ha => absurd ha h)

/-- Properties of every keyword produced by `extractKeywords` (and of the
literal defaults substituted for missing keywords): no dash, no two adjacent
whitespace characters, and at least two characters. -/
structure KwProps (w : List Char) : Prop where
  noDash : '-' ∉ w
  chain : List.Chain' NoTwoWs w
  twoLe : 2 ≤ w.length

/-- Decidable check that the text following a newline defeats the steps
continuation using only characters of `t` itself: the first non-whitespace
character is not a dash, or it is a dash followed (after whitespace) by
`Th`, on which both `Test ` and `Step` fail. -/
def resolveAfterNl (t : List Char) : Bool :=
  match dropWs t with
  | [] => false
  | c :: v =>
    if c = '-' then
      match dropWs v with
      | 'T' :: 'h' :: _ => true
      | _ => false
    else true

/-- Decidable check that every newline of `x` is either resolved inside `x`
by `resolveAfterNl` or followed only by whitespace (so that safety reduces
to the continuation). -/
def nlCheckT : List Char → Bool
  | [] => true
  | c :: t =>
    (if c = '\n' then resolveAfterNl t || (dropWs t).isEmpty else true) && nlCheckT t

/-- Character-list form of the tail of `String.intercalate`: the separator
and one element for each remaining list entry. -/
def interTail (sep : List Char) : List (List Char) → List Char
  | [] => []
  | x :: xs => sep ++ x ++ interTail sep xs

/-! ## Concrete jobs and payloads used by the claims -/

/-- Small payload used by the C1 trace. -/
def c1Payload : Payload := ⟨some "User login", some "- ok works fine"⟩

/-- Job stored by `startTestCaseGenerationJob` at time 1000 for `c1Payload`. -/
def c1Job0 : Job :=
  { status := .pending
    payload := c1Payload
    startTime := 1000
    timeoutAt := 61000
    result := none
    timedOut := false
    error := none
    completionTime := none }

/-- Store after the background task marked the job processing. -/
def c1StProcessing : Option Job := some (bgMarkProcessing c1Job0)

/-- Store after a poll at time 61001 (past `timeoutAt`), which realizes the
lazy timeout and persists a completed job with fallback content. -/
def c1StTerminal : Option Job := (getJobStatus 61001 c1StProcessing).2

/-- Store after the background task's own completion write finally lands
(the generation call returned real text at time 61002): an unconditional
`updateJob` spreading the stale snapshot `c1Job0`. -/
def c1StAfterBg : Option Job :=
  some (bgCompleteSuccess (fun _ => none) c1Job0
    (.strVal "Real generated test cases") 61002)

/-- Payload and jobs for the C2 witness. -/
def c2ProcJob : Job :=
  { status := .processing
    payload := c1Payload
    startTime := 0
    timeoutAt := 60000
    result := none
    timedOut := false
    error := none
    completionTime := none }

def c2DoneJob : Job :=
  { status := .completed
    payload := c1Payload
    startTime := 0
    timeoutAt := 60000
    result := some (.strVal "done")
    timedOut := false
    error := none
    completionTime := some 50 }

/-- Payload and processing job used by the C3 statements. -/
def c3Payload : Payload := ⟨some "Search feature", some "- search works"⟩

def c3Job : Job :=
  { status := .processing
    payload := c3Payload
    startTime := 0
    timeoutAt := 60000
    result := none
    timedOut := false
    error := none
    completionTime := none }

/-- The scenario payload fixed by the specification (C7). -/
def scenarioPayload : Payload :=
  ⟨some "User login with email and password",
   some "- User sees error on invalid password\n- User redirected to dashboard on success"⟩

/-! ## Claims -/

set_option maxRecDepth 1000000

/-! ## Supporting development for claim C7

The lemmas below establish that the structured-regex strategy can never
match the output of the fallback generator (its steps continuation fails
after every newline of that text), and that the markdown-style and
generic-paragraph strategies push only records with non-empty titles, the
generic one always accepting the first fallback paragraph. -/

/-! ### Newline-safety lemmas for the steps continuation -/

theorem rxSteps_nil : rxStepsContAfterNl [] = none := rfl

theorem dropWhile_head_false {p : Char → Bool} {l : List Char} {c : Char}
    {v : List Char} (h : l.dropWhile p = c :: v) : p c = false := by
  induction l with
  | nil => simp at h
  | cons a t ih =>
    rw [List.dropWhile_cons] at h
    cases hpa : p a with
    | true => rw [hpa] at h; simp at h; exact ih h
    | false => rw [hpa] at h; simp at h; rw [← h.1]; exact hpa

theorem dropWs_append_of_cons {x : List Char} {c : Char} {v : List Char}
    (h : dropWs x = c :: v) (k : List Char) :
    dropWs (x ++ k) = c :: (v ++ k) := by
  unfold dropWs at *
  rw [List.dropWhile_append, h]
  simp

theorem dropWs_append_of_nil {x : List Char} (h : dropWs x = []) (k : List Char) :
    dropWs (x ++ k) = dropWs k := by
  unfold dropWs at *
  rw [List.dropWhile_append, h]
  simp

theorem dropWs_cons_neg {d : Char} (h : isJsWs d = false) (u : List Char) :
    dropWs (d :: u) = d :: u := by
  unfold dropWs
  rw [List.dropWhile_cons, h]
  simp

theorem isPre_cons {p c : Char} {ps cs : List Char} :
    isPre (p :: ps) (c :: cs) = ((p == c) && isPre ps cs) := by
  simp [isPre, List.isPrefixOf]

theorem isPre_false_of_ne {p c : Char} {ps cs : List Char} (h : (p == c) = false) :
    isPre (p :: ps) (c :: cs) = false := by
  rw [isPre_cons, h, Bool.false_and]

theorem rxSteps_none_of_head_ne {x : List Char} {c : Char} {v : List Char}
    (h : dropWs x = c :: v) (hc : c ≠ '-') (k : List Char) :
    rxStepsContAfterNl (x ++ k) = none := by
  unfold rxStepsContAfterNl
  rw [dropWs_append_of_cons h]
  split
  · rename_i r2 heq
    injection heq with h1 _
    exact absurd h1 hc
  · rfl

theorem rxSteps_none_dashTh {x y z : List Char}
    (h1 : dropWs x = '-' :: y) (h2 : dropWs y = 'T' :: 'h' :: z) (k : List Char) :
    rxStepsContAfterNl (x ++ k) = none := by
  have h2k : dropWs (y ++ k) = 'T' :: 'h' :: (z ++ k) := dropWs_append_of_cons h2 k
  have hTest : isPre "Test ".data ('T' :: 'h' :: (z ++ k)) = false := by
    rw [show "Test ".data = 'T' :: 'e' :: 's' :: 't' :: ' ' :: ([] : List Char) from rfl]
    rw [isPre_cons, isPre_false_of_ne (show (('e' : Char) == 'h') = false from by decide)]
    simp
  have hSteps : isPre "Steps:".data ('T' :: 'h' :: (z ++ k)) = false := by
    rw [show "Steps:".data = 'S' :: 't' :: 'e' :: 'p' :: 's' :: ':' :: ([] : List Char) from rfl]
    exact isPre_false_of_ne (by decide)
  have hStep : isPre "Step:".data ('T' :: 'h' :: (z ++ k)) = false := by
    rw [show "Step:".data = 'S' :: 't' :: 'e' :: 'p' :: ':' :: ([] : List Char) from rfl]
    exact isPre_false_of_ne (by decide)
  unfold rxStepsContAfterNl
  rw [dropWs_append_of_cons h1]
  simp [h2k, hTest, hSteps, hStep]

theorem rxSteps_cons_ws {c : Char} (h : isJsWs c = true) (l : List Char) :
    rxStepsContAfterNl (c :: l) = rxStepsContAfterNl l := by
  unfold rxStepsContAfterNl dropWs
  rw [List.dropWhile_cons, h]
  simp

theorem rxSteps_append_allWs {u : List Char} (h : dropWs u = []) (k : List Char) :
    rxStepsContAfterNl (u ++ k) = rxStepsContAfterNl k := by
  unfold rxStepsContAfterNl
  rw [dropWs_append_of_nil h]

/-! ### Lemmas about `NlOk` -/

theorem nlOk_nil (k : List Char) : NlOk [] k := by
  intro a u h
  simp at h

theorem nlOk_of_not_mem {x : List Char} (h : '\n' ∉ x) (k : List Char) : NlOk x k := by
  intro a u heq
  rw [heq] at h
  exact absurd (List.mem_append_right a (List.mem_cons_self _ _)) h

theorem nlOk_append {x y k : List Char} (hx : NlOk x (y ++ k)) (hy : NlOk y k) :
    NlOk (x ++ y) k := by
  intro a u heq
  rcases List.append_eq_append_iff.mp heq with ⟨w, hw1, hw2⟩ | ⟨w, hw1, hw2⟩
  · exact hy w u hw2
  · cases w with
    | nil =>
      simp at hw2
      exact hy [] u (by simpa using hw2.symm)
    | cons w0 w2 =>
      rw [List.cons_append] at hw2
      injection hw2 with hnl hu
      rw [hu, List.append_assoc]
      exact hx a w2 (by rw [hw1, hnl])

/-! ### Keyword fragments are newline-safe -/

theorem kwProps_dropWs_cons {w : List Char} (h : KwProps w) :
    ∃ c v, dropWs w = c :: v ∧ isJsWs c = false ∧ c ≠ '-' := by
  cases hd : dropWs w with
  | nil =>
    exfalso
    have hall : ∀ c ∈ w, isJsWs c := by
      simpa [dropWs, List.dropWhile_eq_nil_iff] using hd
    cases w with
    | nil => exact absurd h.twoLe (by decide)
    | cons a w1 =>
      cases w1 with
      | nil =>
        have h2 := h.twoLe
        simp at h2
      | cons b t =>
        have hab : NoTwoWs a b := (List.chain'_cons.mp h.chain).1
        have hb := hall b (by simp)
        have := hab (hall a (by simp))
        simp [this] at hb
  | cons c v =>
    refine ⟨c, v, rfl, dropWhile_head_false hd, ?_⟩
    have hd2 : List.dropWhile isJsWs w = c :: v := hd
    have hcm : c ∈ w :=
      (List.dropWhile_suffix isJsWs).subset
        (by rw [hd2]; exact List.mem_cons_self c v)
    exact fun hdash => h.noDash (hdash ▸ hcm)

theorem rxSafe_kw_append {w : List Char} (h : KwProps w) (k : List Char) :
    rxStepsContAfterNl (w ++ k) = none := by
  obtain ⟨c, v, hd, _, hc⟩ := kwProps_dropWs_cons h
  exact rxSteps_none_of_head_ne hd hc k

theorem nlOk_kw {w : List Char} (h : KwProps w) {k : List Char}
    (hk : rxStepsContAfterNl k = none) : NlOk w k := by
  intro a u heq
  cases u with
  | nil => simpa using hk
  | cons d u2 =>
    have hch : List.Chain' NoTwoWs ('\n' :: d :: u2) := by
      have hc := h.chain
      rw [heq] at hc
      exact hc.right_of_append
    have hd : isJsWs d = false := (List.chain'_cons.mp hch).1 (by decide)
    have hdm : d ∈ w := by
      rw [heq]
      exact List.mem_append_right a (by simp)
    have hdne : d ≠ '-' := fun hh => h.noDash (hh ▸ hdm)
    exact rxSteps_none_of_head_ne (dropWs_cons_neg hd u2) hdne k

/-! ### Soundness of the decidable newline checkers -/

theorem resolveAfterNl_sound {t : List Char} (h : resolveAfterNl t = true)
    (k : List Char) : rxStepsContAfterNl (t ++ k) = none := by
  unfold resolveAfterNl at h
  split at h
  · exact absurd h (by decide)
  · rename_i c v hd
    by_cases hc : c = '-'
    · rw [if_pos hc] at h
      subst hc
      split at h
      · rename_i z heq2
        exact rxSteps_none_dashTh hd heq2 k
      · exact absurd h (by decide)
    · exact rxSteps_none_of_head_ne hd hc k

theorem nlCheckT_sound : ∀ {x : List Char}, nlCheckT x = true →
    ∀ {k : List Char}, rxStepsContAfterNl k = none → NlOk x k := by
  intro x
  induction x with
  | nil => intro _ k _; exact nlOk_nil k
  | cons c t ih =>
    intro h k hk a u heq
    rw [nlCheckT, Bool.and_eq_true] at h
    obtain ⟨h1, h2⟩ := h
    cases a with
    | nil =>
      simp only [List.nil_append] at heq
      injection heq with hc ht
      subst hc
      subst ht
      rw [if_pos rfl] at h1
      have h1b : resolveAfterNl t = true ∨ dropWs t = [] := by
        simpa [List.isEmpty_iff] using h1
      rcases h1b with hr | he
      · exact resolveAfterNl_sound hr k
      · rw [rxSteps_append_allWs he k]
        exact hk
    | cons a0 a2 =>
      rw [List.cons_append] at heq
      injection heq with _ ht
      exact ih h2 hk a2 u ht

/-! ### Structure of `splitOnP` parts -/

theorem splitOnP_headD_front (p : Char → Bool) :
    ∀ xs : List Char, ((xs.splitOnP p).headD []) <+: xs
  | [] => by simp
  | x :: xs => by
    rw [List.splitOnP_cons]
    by_cases hp : p x = true
    · rw [if_pos hp]
      simp
    · rw [if_neg hp]
      cases hsp : xs.splitOnP p with
      | nil => exact absurd hsp (List.splitOnP_ne_nil p xs)
      | cons hh tt =>
        have ih := splitOnP_headD_front p xs
        rw [hsp] at ih
        simp only [List.headD_cons] at ih ⊢
        simp only [List.modifyHead]
        obtain ⟨t, ht⟩ := ih
        exact ⟨t, by simp only [List.headD_cons, List.cons_append, ht]⟩

theorem splitOnP_mem_pred (p : Char → Bool) :
    ∀ (xs : List Char), ∀ part ∈ xs.splitOnP p, ∀ c ∈ part, p c = false ∧ c ∈ xs
  | [] => by simp
  | x :: xs => by
    intro part hpart c hc
    rw [List.splitOnP_cons] at hpart
    by_cases hp : p x = true
    · rw [if_pos hp] at hpart
      rcases List.mem_cons.mp hpart with h | h
      · subst h; simp at hc
      · obtain ⟨h1, h2⟩ := splitOnP_mem_pred p xs part h c hc
        exact ⟨h1, List.mem_cons_of_mem x h2⟩
    · rw [if_neg hp] at hpart
      cases hsp : xs.splitOnP p with
      | nil => exact absurd hsp (List.splitOnP_ne_nil p xs)
      | cons hh tt =>
        rw [hsp] at hpart
        simp only [List.modifyHead] at hpart
        rcases List.mem_cons.mp hpart with h | h
        · subst h
          rcases List.mem_cons.mp hc with h2 | h2
          · subst h2
            exact ⟨by simpa using hp, List.mem_cons_self c xs⟩
          · have hm : hh ∈ xs.splitOnP p := by
              rw [hsp]; exact List.mem_cons_self hh tt
            obtain ⟨h1, h3⟩ := splitOnP_mem_pred p xs hh hm c h2
            exact ⟨h1, List.mem_cons_of_mem x h3⟩
        · have hm : part ∈ xs.splitOnP p := by
            rw [hsp]; exact List.mem_cons_of_mem hh h
          obtain ⟨h1, h3⟩ := splitOnP_mem_pred p xs part hm c hc
          exact ⟨h1, List.mem_cons_of_mem x h3⟩

theorem splitOnP_chain (p : Char → Bool) (R : Char → Char → Prop) :
    ∀ (xs : List Char), List.Chain' R xs → ∀ part ∈ xs.splitOnP p, List.Chain' R part
  | [] => by simp
  | x :: xs => by
    intro hch part hpart
    rw [List.splitOnP_cons] at hpart
    have hch2 : List.Chain' R xs := hch.tail
    by_cases hp : p x = true
    · rw [if_pos hp] at hpart
      rcases List.mem_cons.mp hpart with h | h
      · subst h; exact List.chain'_nil
      · exact splitOnP_chain p R xs hch2 part h
    · rw [if_neg hp] at hpart
      cases hsp : xs.splitOnP p with
      | nil => exact absurd hsp (List.splitOnP_ne_nil p xs)
      | cons hh tt =>
        rw [hsp] at hpart
        simp only [List.modifyHead] at hpart
        rcases List.mem_cons.mp hpart with h | h
        · subst h
          rw [List.chain'_cons']
          constructor
          · intro y hy
            have hpre := splitOnP_headD_front p xs
            rw [hsp] at hpre
            simp only [List.headD_cons] at hpre
            cases hh with
            | nil => simp at hy
            | cons h0 hh2 =>
              simp only [List.head?_cons, Option.mem_def, Option.some.injEq] at hy
              subst hy
              obtain ⟨t, ht⟩ := hpre
              rw [List.cons_append] at ht
              rw [← ht] at hch
              exact (List.chain'_cons.mp hch).1
          · exact splitOnP_chain p R xs hch2 hh
              (by rw [hsp]; exact List.mem_cons_self hh tt)
        · exact splitOnP_chain p R xs hch2 part
            (by rw [hsp]; exact List.mem_cons_of_mem hh h)

/-! ### Character-content lemmas for trim, whitespace collapse and keywords -/

theorem jsTrim_subset {l : List Char} : ∀ {c}, c ∈ jsTrim l → c ∈ l := by
  intro c hc
  unfold jsTrim at hc
  rw [List.mem_reverse] at hc
  have h1 := (List.dropWhile_suffix isJsWs).subset hc
  rw [List.mem_reverse] at h1
  exact (List.dropWhile_suffix isJsWs).subset h1

theorem collapseWs_reduce (f : Char) (fuel : List Char) (c c2 : Char) (rest2 : List Char) :
    collapseWs (f :: fuel) (c :: c2 :: rest2) =
      if isJsWs c then
        (if isJsWs c2 then ' ' :: collapseWs fuel ((c2 :: rest2).dropWhile isJsWs)
         else c :: collapseWs fuel (c2 :: rest2))
      else c :: collapseWs fuel (c2 :: rest2) := rfl

theorem collapseWs_one (f : Char) (fuel : List Char) (c : Char) :
    collapseWs (f :: fuel) [c] =
      if isJsWs c then [c] else c :: collapseWs fuel [] := rfl

theorem collapseWs_nil_fuel (c : Char) (rest : List Char) :
    collapseWs [] (c :: rest) = c :: rest := rfl

theorem collapseWs_nil (fuel : List Char) : collapseWs fuel [] = [] := by
  cases fuel <;> rfl

theorem collapseWs_head (fuel : List Char) (c : Char) (rest : List Char) :
    ∃ d out, collapseWs fuel (c :: rest) = d :: out ∧ isJsWs d = isJsWs c := by
  cases fuel with
  | nil => exact ⟨c, rest, collapseWs_nil_fuel c rest, rfl⟩
  | cons f fuel =>
    cases rest with
    | nil =>
      rw [collapseWs_one]
      by_cases hc : isJsWs c = true
      · rw [if_pos hc]; exact ⟨c, [], rfl, rfl⟩
      · rw [if_neg hc]; exact ⟨c, _, rfl, rfl⟩
    | cons c2 rest2 =>
      rw [collapseWs_reduce]
      by_cases hc : isJsWs c = true
      · rw [if_pos hc]
        by_cases hc2 : isJsWs c2 = true
        · rw [if_pos hc2]
          exact ⟨' ', _, rfl, by rw [hc]; decide⟩
        · rw [if_neg hc2]; exact ⟨c, _, rfl, rfl⟩
      · rw [if_neg hc]; exact ⟨c, _, rfl, rfl⟩

theorem collapseWs_chars : ∀ (fuel l : List Char), ∀ c ∈ collapseWs fuel l, c ∈ l ∨ c = ' '
  | fuel, [] => by intro c hc; rw [collapseWs_nil] at hc; simp at hc
  | [], x :: rest => by
    intro c hc
    rw [collapseWs_nil_fuel] at hc
    exact Or.inl hc
  | f :: fuel, x :: rest => by
    intro c hc
    cases rest with
    | nil =>
      rw [collapseWs_one] at hc
      by_cases hx : isJsWs x = true
      · rw [if_pos hx] at hc
        exact Or.inl hc
      · rw [if_neg hx] at hc
        rcases List.mem_cons.mp hc with h | h
        · exact Or.inl (by rw [h]; exact List.mem_cons_self x [])
        · rw [collapseWs_nil] at h; simp at h
    | cons c2 rest2 =>
      rw [collapseWs_reduce] at hc
      by_cases hx : isJsWs x = true
      · rw [if_pos hx] at hc
        by_cases hc2 : isJsWs c2 = true
        · rw [if_pos hc2] at hc
          rcases List.mem_cons.mp hc with h | h
          · exact Or.inr h
          · rcases collapseWs_chars fuel ((c2 :: rest2).dropWhile isJsWs) c h with h2 | h2
            · exact Or.inl (List.mem_cons_of_mem x
                ((List.dropWhile_suffix isJsWs).subset h2))
            · exact Or.inr h2
        · rw [if_neg hc2] at hc
          rcases List.mem_cons.mp hc with h | h
          · exact Or.inl (by rw [h]; exact List.mem_cons_self _ _)
          · rcases collapseWs_chars fuel (c2 :: rest2) c h with h2 | h2
            · exact Or.inl (List.mem_cons_of_mem x h2)
            · exact Or.inr h2
      · rw [if_neg hx] at hc
        rcases List.mem_cons.mp hc with h | h
        · exact Or.inl (by rw [h]; exact List.mem_cons_self _ _)
        · rcases collapseWs_chars fuel (c2 :: rest2) c h with h2 | h2
          · exact Or.inl (List.mem_cons_of_mem x h2)
          · exact Or.inr h2

theorem collapseWs_chain : ∀ (fuel l : List Char), l.length ≤ fuel.length →
    List.Chain' NoTwoWs (collapseWs fuel l)
  | fuel, [], _ => by rw [collapseWs_nil]; exact List.chain'_nil
  | [], x :: rest, h => by simp at h
  | f :: fuel, x :: rest, h => by
    cases rest with
    | nil =>
      rw [collapseWs_one]
      by_cases hx : isJsWs x = true
      · rw [if_pos hx]; simp
      · rw [if_neg hx]
        rw [collapseWs_nil]
        simp
    | cons c2 rest2 =>
      have hlen : (c2 :: rest2).length ≤ fuel.length := by
        simp at h ⊢
        omega
      rw [collapseWs_reduce]
      by_cases hx : isJsWs x = true
      · rw [if_pos hx]
        by_cases hc2 : isJsWs c2 = true
        · rw [if_pos hc2]
          rw [List.chain'_cons']
          constructor
          · intro y hy
            cases hdw : (c2 :: rest2).dropWhile isJsWs with
            | nil =>
              rw [hdw, collapseWs_nil] at hy
              simp at hy
            | cons e es =>
              rw [hdw] at hy
              obtain ⟨d, out, hco, hws⟩ := collapseWs_head fuel e es
              rw [hco] at hy
              simp only [List.head?_cons, Option.mem_def, Option.some.injEq] at hy
              subst hy
              intro _
              rw [hws]
              exact dropWhile_head_false hdw
          · refine collapseWs_chain fuel _ ?_
            calc ((c2 :: rest2).dropWhile isJsWs).length
                ≤ (c2 :: rest2).length := (List.dropWhile_suffix isJsWs).length_le
              _ ≤ fuel.length := hlen
        · rw [if_neg hc2]
          rw [List.chain'_cons']
          constructor
          · intro y hy
            obtain ⟨d, out, hco, hws⟩ := collapseWs_head fuel c2 rest2
            rw [hco] at hy
            simp only [List.head?_cons, Option.mem_def, Option.some.injEq] at hy
            subst hy
            intro _
            rw [hws]
            simpa using hc2
          · exact collapseWs_chain fuel _ hlen
      · rw [if_neg hx]
        rw [List.chain'_cons']
        constructor
        · intro y _
          intro hxw
          exact absurd hxw hx
        · exact collapseWs_chain fuel _ hlen

theorem dedupFirst_subset : ∀ (seen l : List String) (x : String),
    x ∈ dedupFirst seen l → x ∈ l
  | seen, [], x => by intro h; rw [dedupFirst] at h; simp at h
  | seen, y :: ys, x => by
    intro h
    rw [dedupFirst] at h
    by_cases hy : seen.contains y = true
    · rw [if_pos hy] at h
      exact List.mem_cons_of_mem y (dedupFirst_subset seen ys x h)
    · rw [if_neg hy] at h
      rcases List.mem_cons.mp h with h2 | h2
      · rw [h2]; exact List.mem_cons_self y ys
      · exact List.mem_cons_of_mem y (dedupFirst_subset (y :: seen) ys x h2)

theorem toLower_eq_nl {a : Char} (h : a.toLower = '\n') : a = '\n' := by
  simp only [Char.toLower] at h
  split at h
  · rename_i hg
    exfalso
    obtain ⟨h1, h2⟩ := hg
    set n := a.toNat with hn
    interval_cases n <;> exact absurd h (by decide)
  · exact h

theorem map_toLower_nl_free {l : List Char} (h : '\n' ∉ l) :
    '\n' ∉ l.map Char.toLower := by
  intro hm
  obtain ⟨a, ha, he⟩ := List.mem_map.mp hm
  exact h (toLower_eq_nl he ▸ ha)

/-! ### Properties of every extracted keyword -/

theorem extractKeywords_props {t : String} :
    ∀ w ∈ extractKeywords t, KwProps w.data := by
  intro w hw
  simp only [extractKeywords] at hw
  have hfil := dedupFirst_subset _ _ _ hw
  obtain ⟨hmap, hcond⟩ := List.mem_filter.mp hfil
  obtain ⟨tok, htok, hmk⟩ := List.mem_map.mp hmap
  have hdata : w.data = tok := by rw [← hmk]
  have hcond2 : 3 < w.length ∧ ¬(commonWords.contains w = true) := by
    simpa using hcond
  have htokP2 : tok ∈ ((collapseWs ((t.data.map Char.toLower).filter
      (fun c => !(isKwPunct c))) ((t.data.map Char.toLower).filter
      (fun c => !(isKwPunct c)))).splitOnP (· == ' ')) := htok
  refine ⟨?_, ?_, ?_⟩
  · rw [hdata]
    intro hdash
    obtain ⟨_, hmem⟩ := splitOnP_mem_pred (· == ' ') _ tok htokP2 '-' hdash
    rcases collapseWs_chars _ _ '-' hmem with h2 | h2
    · obtain ⟨_, hpunct⟩ := List.mem_filter.mp h2
      exact absurd hpunct (by decide)
    · exact absurd h2 (by decide)
  · rw [hdata]
    exact splitOnP_chain (· == ' ') NoTwoWs _
      (collapseWs_chain _ _ (Nat.le_refl _)) tok htokP2
  · rw [hdata]
    have h3 := hcond2.1
    rw [← hmk] at h3
    have h4 : 3 < tok.length := h3
    omega

theorem extractKeywords_chars {t : String} :
    ∀ w ∈ extractKeywords t, ∀ c ∈ w.data, c ∈ t.data.map Char.toLower ∨ c = ' ' := by
  intro w hw c hc
  simp only [extractKeywords] at hw
  have hfil := dedupFirst_subset _ _ _ hw
  obtain ⟨hmap, _⟩ := List.mem_filter.mp hfil
  obtain ⟨tok, htok, hmk⟩ := List.mem_map.mp hmap
  have hdata : w.data = tok := by rw [← hmk]
  rw [hdata] at hc
  have htokP2 : tok ∈ ((collapseWs ((t.data.map Char.toLower).filter
      (fun c => !(isKwPunct c))) ((t.data.map Char.toLower).filter
      (fun c => !(isKwPunct c)))).splitOnP (· == ' ')) := htok
  obtain ⟨_, hmem⟩ := splitOnP_mem_pred (· == ' ') _ tok htokP2 c hc
  rcases collapseWs_chars _ _ c hmem with h2 | h2
  · exact Or.inl (List.mem_filter.mp h2).1
  · exact Or.inr h2

theorem getOr_cases (l : List String) (i : Nat) (d : String) :
    getOr l i d = d ∨ (getOr l i d ∈ l ∧ getOr l i d ≠ "") := by
  unfold getOr
  cases hg : l.get? i with
  | none => exact Or.inl rfl
  | some s =>
    show (if s = "" then d else s) = d ∨
      ((if s = "" then d else s) ∈ l ∧ (if s = "" then d else s) ≠ "")
    by_cases hs : s = ""
    · rw [if_pos hs]; exact Or.inl rfl
    · rw [if_neg hs]
      exact Or.inr ⟨List.get?_mem hg, hs⟩

theorem kwProps_getOr (t : String) (i : Nat) {d : String} (hd : KwProps d.data) :
    KwProps (getOr (extractKeywords t) i d).data := by
  rcases getOr_cases (extractKeywords t) i d with h | ⟨hm, _⟩
  · rw [h]; exact hd
  · exact extractKeywords_props _ hm

theorem nlFree_getOr {t : String} (i : Nat) {d : String} (ht : '\n' ∉ t.data)
    (hd : '\n' ∉ d.data) : '\n' ∉ (getOr (extractKeywords t) i d).data := by
  rcases getOr_cases (extractKeywords t) i d with h | ⟨hm, _⟩
  · rw [h]; exact hd
  · intro hmem
    rcases extractKeywords_chars _ hm '\n' hmem with h2 | h2
    · exact map_toLower_nl_free ht h2
    · exact absurd h2 (by decide)

/-! ### Decimal representations are newline-safe -/

theorem digitChar_props (n : Nat) :
    isJsWs (Nat.digitChar n) = false ∧ Nat.digitChar n ≠ '-' := by
  by_cases h : n < 16
  · interval_cases n <;> exact ⟨by decide, by decide⟩
  · have hstar : Nat.digitChar n = '*' := by
      unfold Nat.digitChar
      rw [if_neg (by omega : ¬n = 0), if_neg (by omega : ¬n = 1),
        if_neg (by omega : ¬n = 2), if_neg (by omega : ¬n = 3),
        if_neg (by omega : ¬n = 4), if_neg (by omega : ¬n = 5),
        if_neg (by omega : ¬n = 6), if_neg (by omega : ¬n = 7),
        if_neg (by omega : ¬n = 8), if_neg (by omega : ¬n = 9),
        if_neg (by omega : ¬n = 10), if_neg (by omega : ¬n = 11),
        if_neg (by omega : ¬n = 12), if_neg (by omega : ¬n = 13),
        if_neg (by omega : ¬n = 14), if_neg (by omega : ¬n = 15)]
    rw [hstar]
    exact ⟨by decide, by decide⟩

theorem toDigitsCore_props (b : Nat) : ∀ (fuel n : Nat) (ds : List Char),
    (∀ c ∈ ds, isJsWs c = false ∧ c ≠ '-') →
    ∀ c ∈ Nat.toDigitsCore b fuel n ds, isJsWs c = false ∧ c ≠ '-'
  | 0, n, ds, hds => hds
  | fuel+1, n, ds, hds => by
    intro c hc
    simp only [Nat.toDigitsCore] at hc
    by_cases h0 : n / b = 0
    · rw [if_pos h0] at hc
      rcases List.mem_cons.mp hc with h | h
      · rw [h]; exact digitChar_props _
      · exact hds c h
    · rw [if_neg h0] at hc
      refine toDigitsCore_props b fuel (n / b) _ ?_ c hc
      intro e he
      rcases List.mem_cons.mp he with h | h
      · rw [h]; exact digitChar_props _
      · exact hds e h

theorem repr_props (n : Nat) : ∀ c ∈ (Nat.repr n).data, isJsWs c = false ∧ c ≠ '-' := by
  intro c hc
  have hrepr : (Nat.repr n).data = Nat.toDigitsCore 10 (n + 1) n [] := rfl
  rw [hrepr] at hc
  exact toDigitsCore_props 10 (n + 1) n [] (by simp) c hc

theorem toDigitsCore_ne_nil (b : Nat) : ∀ (fuel n : Nat) (ds : List Char),
    (fuel = 0 → ds ≠ []) → Nat.toDigitsCore b fuel n ds ≠ []
  | 0, n, ds, h => h rfl
  | fuel+1, n, ds, _ => by
    simp only [Nat.toDigitsCore]
    by_cases h0 : n / b = 0
    · rw [if_pos h0]; simp
    · rw [if_neg h0]
      exact toDigitsCore_ne_nil b fuel (n / b) _ (by simp)

theorem repr_ne_nil (n : Nat) : (Nat.repr n).data ≠ [] :=
  toDigitsCore_ne_nil 10 (n + 1) n [] (by simp)

theorem rxSafe_repr (n : Nat) (k : List Char) :
    rxStepsContAfterNl ((Nat.repr n).data ++ k) = none := by
  cases hd : (Nat.repr n).data with
  | nil => exact absurd hd (repr_ne_nil n)
  | cons c v =>
    have hc := repr_props n c (by rw [hd]; exact List.mem_cons_self c v)
    exact rxSteps_none_of_head_ne (dropWs_cons_neg hc.1 v) hc.2 k

theorem repr_nl_free (n : Nat) : '\n' ∉ (Nat.repr n).data := by
  intro hm
  exact absurd (repr_props n '\n' hm).1 (by decide)

/-! ### Data of `String.intercalate` -/

theorem intercalate_go_data (s : String) :
    ∀ (as : List String) (acc : String),
      (String.intercalate.go acc s as).data =
        acc.data ++ interTail s.data (as.map String.data)
  | [], acc => by
    rw [String.intercalate.go]
    simp [interTail]
  | a :: as, acc => by
    rw [String.intercalate.go]
    rw [intercalate_go_data s as (acc ++ s ++ a)]
    simp [interTail, List.append_assoc]

theorem intercalate_data (s : String) (a : String) (as : List String) :
    (String.intercalate s (a :: as)).data =
      a.data ++ interTail s.data (as.map String.data) := by
  rw [show String.intercalate s (a :: as) = String.intercalate.go a s as from rfl]
  exact intercalate_go_data s as a

theorem interTail_chars (sep : List Char) :
    ∀ (bs : List (List Char)), ∀ c ∈ interTail sep bs, c ∈ sep ∨ ∃ b ∈ bs, c ∈ b
  | [] => by simp [interTail]
  | b :: bs => by
    intro c hc
    rw [interTail] at hc
    rcases List.mem_append.mp hc with h | h
    · rcases List.mem_append.mp h with h2 | h2
      · exact Or.inl h2
      · exact Or.inr ⟨b, List.mem_cons_self b bs, h2⟩
    · rcases interTail_chars sep bs c h with h2 | ⟨b2, hb2, hcb⟩
      · exact Or.inl h2
      · exact Or.inr ⟨b2, List.mem_cons_of_mem b hb2, hcb⟩

theorem intercalate_data_chars {sep : String} {parts : List String} {c : Char}
    (hc : c ∈ (String.intercalate sep parts).data) :
    c ∈ sep.data ∨ ∃ q ∈ parts, c ∈ q.data := by
  cases parts with
  | nil => simp [String.intercalate] at hc
  | cons a as =>
    rw [intercalate_data] at hc
    rcases List.mem_append.mp hc with h | h
    · exact Or.inr ⟨a, List.mem_cons_self a as, h⟩
    · rcases interTail_chars sep.data _ c h with h2 | ⟨bd, hbd, hcb⟩
      · exact Or.inl h2
      · obtain ⟨q, hq, hqd⟩ := List.mem_map.mp hbd
        exact Or.inr ⟨q, List.mem_cons_of_mem a hq, by rw [hqd]; exact hcb⟩

theorem lastThreeWords_chars {line : String} {c : Char}
    (hc : c ∈ (lastThreeWords line).data) : c ∈ line.data ∨ c = ' ' := by
  simp only [lastThreeWords] at hc
  rcases intercalate_data_chars hc with h | ⟨q, hq, hcq⟩
  · right; simpa using h
  · have hq2 := List.mem_of_mem_drop hq
    obtain ⟨tok, htok, hmk⟩ := List.mem_map.mp hq2
    have hdata : q.data = tok := by rw [← hmk]
    rw [hdata] at hcq
    have htokP : tok ∈ line.data.splitOnP (· == ' ') := htok
    exact Or.inl (splitOnP_mem_pred (· == ' ') line.data tok htokP c hcq).2

/-! ### Newline safety of the joined fallback output -/

theorem toString_nat_eq (n : Nat) : toString n = Nat.repr n := rfl

theorem nlOk_interTail {bs : List (List Char)}
    (hs : ∀ b ∈ bs, ∀ k, rxStepsContAfterNl (b ++ k) = none)
    (hn : ∀ b ∈ bs, ∀ k, rxStepsContAfterNl k = none → NlOk b k) :
    rxStepsContAfterNl (interTail ['\n'] bs) = none ∧
    NlOk (interTail ['\n'] bs) [] := by
  induction bs with
  | nil => exact ⟨rxSteps_nil, nlOk_nil []⟩
  | cons b bs ih =>
    obtain ⟨ih1, ih2⟩ := ih
      (fun b2 hb2 => hs b2 (List.mem_cons_of_mem b hb2))
      (fun b2 hb2 => hn b2 (List.mem_cons_of_mem b hb2))
    have hb : b ∈ b :: bs := List.mem_cons_self b bs
    have hIT : interTail ['\n'] (b :: bs) = '\n' :: (b ++ interTail ['\n'] bs) := rfl
    constructor
    · rw [hIT, rxSteps_cons_ws (by decide)]
      exact hs b hb _
    · rw [hIT]
      intro a u heq
      cases a with
      | nil =>
        simp only [List.nil_append] at heq
        injection heq with _ hu
        rw [← hu, List.append_assoc]
        exact hs b hb _
      | cons a0 a2 =>
        rw [List.cons_append] at heq
        injection heq with _ ht
        have hX : NlOk (b ++ interTail ['\n'] bs) [] :=
          nlOk_append (by rw [List.append_nil]; exact hn b hb _ ih1) ih2
        exact hX a2 u ht

theorem chain_noTwoWs_of_all_nonws {l : List Char} (h : ∀ c ∈ l, isJsWs c = false) :
    List.Chain' NoTwoWs l := by
  induction l with
  | nil => exact List.chain'_nil
  | cons a t ih =>
    rw [List.chain'_cons']
    refine ⟨?_, ih fun c hc => h c (List.mem_cons_of_mem a hc)⟩
    intro y _ hwa
    rw [h a (List.mem_cons_self a t)] at hwa
    exact absurd hwa (by decide)

theorem acLine_nl_free {ac : String} {line : String}
    (h : line ∈ ((ac.data.splitOn '\n').map
      (fun l => String.mk (jsTrim l))).filter acLineKeep) :
    '\n' ∉ line.data := by
  obtain ⟨hmem, _⟩ := List.mem_filter.mp h
  obtain ⟨tok, htok, hmk⟩ := List.mem_map.mp hmem
  intro hnl
  have hdata : line.data = jsTrim tok := by rw [← hmk]
  rw [hdata] at hnl
  have h2 := jsTrim_subset hnl
  have htokP : tok ∈ ac.data.splitOnP (· == '\n') := htok
  exact absurd (splitOnP_mem_pred (· == '\n') ac.data tok htokP '\n' h2).1 (by decide)

theorem acBlock_rxSafe {feature line : String} (idx : Nat)
    (hfeat : KwProps feature.data) (hline : '\n' ∉ line.data) :
    (∀ k, rxStepsContAfterNl ((fallbackAcBlock feature idx line).data ++ k) = none) ∧
    (∀ k, rxStepsContAfterNl k = none →
      NlOk (fallbackAcBlock feature idx line).data k) := by
  have hacf : KwProps (getOr (extractKeywords line) 0 feature).data :=
    kwProps_getOr line 0 hfeat
  have hcond : KwProps (getOr (extractKeywords line) 1 "condition").data :=
    kwProps_getOr line 1 ⟨by decide, chain_noTwoWs_of_all_nonws (by decide), by decide⟩
  have hcondnl : '\n' ∉ (getOr (extractKeywords line) 1 "condition").data :=
    nlFree_getOr 1 hline (by decide)
  have hbeh : '\n' ∉ (lastThreeWords line).data := by
    intro hm
    rcases lastThreeWords_chars hm with h | h
    · exact hline h
    · exact absurd h (by decide)
  constructor
  · intro k
    simp only [fallbackAcBlock, toString_nat_eq, String.data_append, List.append_assoc]
    exact resolveAfterNl_sound (by decide) _
  · intro k hk
    simp only [fallbackAcBlock, toString_nat_eq, String.data_append, List.append_assoc]
    refine nlOk_append (nlCheckT_sound (by decide) ?_) ?_
    · simp only [List.append_assoc]
      exact rxSafe_repr _ _
    refine nlOk_append (nlOk_of_not_mem (repr_nl_free _) _) ?_
    refine nlOk_append (nlOk_of_not_mem (by decide) _) ?_
    refine nlOk_append (nlOk_of_not_mem (by decide) _) ?_
    refine nlOk_append (nlOk_kw hacf ?_) ?_
    · simp only [List.append_assoc]
      rw [rxSteps_append_allWs (show dropWs " ".data = [] from by decide)]
      exact rxSafe_kw_append hcond _
    refine nlOk_append (nlOk_of_not_mem (by decide) _) ?_
    refine nlOk_append (nlOk_of_not_mem hcondnl _) ?_
    refine nlOk_append (nlOk_of_not_mem (by decide) _) ?_
    refine nlOk_append (nlOk_of_not_mem hbeh _) ?_
    refine nlOk_append (nlCheckT_sound (by decide) ?_) ?_
    · simp only [List.append_assoc]
      exact resolveAfterNl_sound (by decide) _
    refine nlOk_append (nlOk_of_not_mem (by decide) _) ?_
    refine nlOk_append (nlOk_of_not_mem hline _) ?_
    refine nlOk_append (nlCheckT_sound (by decide) ?_) ?_
    · simp only [List.append_assoc]
      exact resolveAfterNl_sound (by decide) _
    refine nlOk_append (nlCheckT_sound (by decide) ?_) ?_
    · simp only [List.append_assoc]
      exact resolveAfterNl_sound (by decide) _
    refine nlOk_append (nlCheckT_sound (by decide) ?_) ?_
    · simp only [List.append_assoc]
      exact resolveAfterNl_sound (by decide) _
    refine nlOk_append (nlOk_of_not_mem (by decide) _) ?_
    refine nlOk_append (nlOk_kw hacf ?_) ?_
    · simp only [List.append_assoc]
      exact resolveAfterNl_sound (by decide) _
    refine nlOk_append (nlCheckT_sound (by decide) ?_) ?_
    · simp only [List.append_assoc]
      exact resolveAfterNl_sound (by decide) _
    refine nlOk_append (nlOk_of_not_mem (by decide) _) ?_
    refine nlOk_append (nlOk_of_not_mem hline _) ?_
    refine nlOk_append (nlCheckT_sound (by decide) ?_) ?_
    · simp only [List.append_assoc]
      exact resolveAfterNl_sound (by decide) _
    refine nlOk_append (nlCheckT_sound (by decide) ?_) ?_
    · simp only [List.append_assoc]
      exact resolveAfterNl_sound (by decide) _
    refine nlOk_append (nlOk_of_not_mem (by decide) _) ?_
    refine nlOk_append (nlOk_kw hacf ?_) ?_
    · simp only [List.append_assoc]
      exact resolveAfterNl_sound (by decide) _
    refine nlOk_append (nlCheckT_sound (by decide) ?_) ?_
    · simp only [List.append_assoc]
      exact resolveAfterNl_sound (by decide) _
    refine nlOk_append (nlCheckT_sound (by decide) ?_) ?_
    · simp only [List.append_assoc]
      exact resolveAfterNl_sound (by decide) _
    refine nlOk_append (nlOk_of_not_mem (by decide) _) ?_
    refine nlOk_append (nlOk_of_not_mem hline _) ?_
    refine nlOk_append (nlCheckT_sound (by decide) ?_) ?_
    · simp only [List.append_assoc]
      exact resolveAfterNl_sound (by decide) _
    refine nlOk_append (nlOk_of_not_mem (by decide) _) ?_
    refine nlOk_append (nlOk_kw hacf ?_) ?_
    · simp only [List.append_assoc]
      exact resolveAfterNl_sound (by decide) _
    refine nlOk_append (nlCheckT_sound (by decide) ?_) ?_
    · exact resolveAfterNl_sound (by decide) _
    exact nlCheckT_sound (by decide) hk

theorem block1_rxSafe {feature kw1 : String}
    (hfeat : KwProps feature.data) (hkw1 : KwProps kw1.data) :
    (∀ k, rxStepsContAfterNl ((fallbackBlock1 feature kw1).data ++ k) = none) ∧
    (∀ k, rxStepsContAfterNl k = none →
      NlOk (fallbackBlock1 feature kw1).data k) := by
  constructor
  · intro k
    simp only [fallbackBlock1, String.data_append, List.append_assoc]
    exact resolveAfterNl_sound (by decide) _
  · intro k hk
    simp only [fallbackBlock1, String.data_append, List.append_assoc]
    refine nlOk_append (nlOk_of_not_mem (by decide) _) ?_
    refine nlOk_append (nlOk_kw hfeat ?_) ?_
    · simp only [List.append_assoc]
      exact resolveAfterNl_sound (by decide) _
    refine nlOk_append (nlCheckT_sound (by decide) ?_) ?_
    · simp only [List.append_assoc]
      exact resolveAfterNl_sound (by decide) _
    refine nlOk_append (nlCheckT_sound (by decide) ?_) ?_
    · simp only [List.append_assoc]
      exact resolveAfterNl_sound (by decide) _
    refine nlOk_append (nlCheckT_sound (by decide) ?_) ?_
    · simp only [List.append_assoc]
      exact resolveAfterNl_sound (by decide) _
    refine nlOk_append (nlCheckT_sound (by decide) ?_) ?_
    · simp only [List.append_assoc]
      exact resolveAfterNl_sound (by decide) _
    refine nlOk_append (nlOk_of_not_mem (by decide) _) ?_
    refine nlOk_append (nlOk_kw hfeat ?_) ?_
    · simp only [List.append_assoc]
      exact resolveAfterNl_sound (by decide) _
    refine nlOk_append (nlCheckT_sound (by decide) ?_) ?_
    · simp only [List.append_assoc]
      exact resolveAfterNl_sound (by decide) _
    refine nlOk_append (nlOk_of_not_mem (by decide) _) ?_
    refine nlOk_append (nlOk_kw hkw1 ?_) ?_
    · simp only [List.append_assoc]
      exact resolveAfterNl_sound (by decide) _
    refine nlOk_append (nlCheckT_sound (by decide) ?_) ?_
    · simp only [List.append_assoc]
      exact resolveAfterNl_sound (by decide) _
    refine nlOk_append (nlOk_of_not_mem (by decide) _) ?_
    refine nlOk_append (nlOk_kw hfeat ?_) ?_
    · simp only [List.append_assoc]
      exact resolveAfterNl_sound (by decide) _
    refine nlOk_append (nlCheckT_sound (by decide) ?_) ?_
    · simp only [List.append_assoc]
      exact resolveAfterNl_sound (by decide) _
    refine nlOk_append (nlCheckT_sound (by decide) ?_) ?_
    · simp only [List.append_assoc]
      exact resolveAfterNl_sound (by decide) _
    refine nlOk_append (nlCheckT_sound (by decide) ?_) ?_
    · simp only [List.append_assoc]
      exact resolveAfterNl_sound (by decide) _
    refine nlOk_append (nlOk_of_not_mem (by decide) _) ?_
    refine nlOk_append (nlOk_kw hfeat ?_) ?_
    · simp only [List.append_assoc]
      exact resolveAfterNl_sound (by decide) _
    refine nlOk_append (nlCheckT_sound (by decide) ?_) ?_
    · simp only [List.append_assoc]
      exact resolveAfterNl_sound (by decide) _
    refine nlOk_append (nlOk_of_not_mem (by decide) _) ?_
    refine nlOk_append (nlOk_kw hkw1 ?_) ?_
    · simp only [List.append_assoc]
      exact resolveAfterNl_sound (by decide) _
    refine nlOk_append (nlCheckT_sound (by decide) ?_) ?_
    · exact resolveAfterNl_sound (by decide) _
    exact nlCheckT_sound (by decide) hk

theorem fallback_list_nlOk {feature kw1 ac : String}
    (hfeat : KwProps feature.data) (hkw1 : KwProps kw1.data) :
    NlOk (String.intercalate "\n" (fallbackBlock1 feature kw1 ::
      ((((ac.data.splitOn '\n').map (fun l => String.mk (jsTrim l))).filter
        acLineKeep).enum.map (fun pr => fallbackAcBlock feature pr.1 pr.2)))).data [] := by
  rw [intercalate_data]
  have hmem : ∀ b ∈ (((((ac.data.splitOn '\n').map (fun l => String.mk (jsTrim l))).filter
      acLineKeep).enum.map (fun pr => fallbackAcBlock feature pr.1 pr.2)).map String.data),
      (∀ k, rxStepsContAfterNl (b ++ k) = none) ∧
      (∀ k, rxStepsContAfterNl k = none → NlOk b k) := by
    intro b hb
    obtain ⟨s, hs, hsd⟩ := List.mem_map.mp hb
    obtain ⟨pr, hpr, hprs⟩ := List.mem_map.mp hs
    have hline : '\n' ∉ pr.2.data :=
      acLine_nl_free (List.getElem?_mem (List.mem_enum_iff_getElem?.mp hpr))
    rw [← hsd, ← hprs]
    exact acBlock_rxSafe pr.1 hfeat hline
  obtain ⟨hIT1, hIT2⟩ := nlOk_interTail
    (fun b hb => (hmem b hb).1) (fun b hb => (hmem b hb).2)
  refine nlOk_append ?_ hIT2
  rw [List.append_nil]
  exact (block1_rxSafe hfeat hkw1).2 _ hIT1

theorem fallback_nlOk (p : Payload) : NlOk (generateFallbackTestCases p).data [] := by
  simp only [generateFallbackTestCases, generateFallbackBlocks]
  exact fallback_list_nlOk
    (kwProps_getOr _ 0 ⟨by decide, chain_noTwoWs_of_all_nonws (by decide), by decide⟩)
    (kwProps_getOr _ 1 ⟨by decide, chain_noTwoWs_of_all_nonws (by decide), by decide⟩)

theorem fallback_out_decomp (p : Payload) :
    ∃ rest, (generateFallbackTestCases p).data =
      "Test Case 1: Verify ".data ++ rest := by
  simp only [generateFallbackTestCases, generateFallbackBlocks]
  rw [intercalate_data]
  simp only [fallbackBlock1, String.data_append, List.append_assoc]
  exact ⟨_, rfl⟩

/-! ### The structured-regex strategy never matches on safe text -/

theorem drop_takeWhile_length (p : Char → Bool) : ∀ l : List Char,
    l.drop (l.takeWhile p).length = l.dropWhile p
  | [] => rfl
  | c :: rest => by
    rw [List.takeWhile_cons, List.dropWhile_cons]
    by_cases hc : p c = true
    · rw [if_pos hc, if_pos hc]
      simp only [List.length_cons, List.drop_succ_cons]
      exact drop_takeWhile_length p rest
    · rw [if_neg hc, if_neg hc]
      simp

theorem dropDigits1_suffix {l r : List Char} (h : dropDigits1 l = some r) : r <:+ l := by
  cases l with
  | nil => simp [dropDigits1] at h
  | cons c rest =>
    rw [dropDigits1] at h
    by_cases hc : isDigitC c = true
    · rw [if_pos hc] at h
      injection h with h2
      rw [← h2]
      exact (List.dropWhile_suffix _).trans (List.suffix_cons c rest)
    · rw [if_neg hc] at h
      exact absurd h (by simp)

theorem nlOk_suffix_steps_none {x : List Char} (hnl : NlOk x [])
    {afterW : List Char} (hs : afterW <:+ x) {a u : List Char}
    (heq : afterW = a ++ '\n' :: u) : rxStepsContAfterNl u = none := by
  obtain ⟨pre, hpre⟩ := hs
  have hx : x = (pre ++ a) ++ '\n' :: u := by
    rw [← hpre, heq, List.append_assoc]
  have h2 := hnl (pre ++ a) u hx
  rwa [List.append_nil] at h2

theorem cand1_none {x : List Char} (hnl : NlOk x [])
    {afterW : List Char} (hs : afterW <:+ x) :
    (match afterW.drop (afterW.takeWhile (fun c => c ≠ '\n')).length with
     | '\n' :: rest => (rxStepsContAfterNl rest).map
         (fun a => (afterW.takeWhile (fun c => c ≠ '\n'), a))
     | _ => none) = none := by
  split
  · rename_i rest heq
    rw [drop_takeWhile_length] at heq
    have hsplit : afterW = afterW.takeWhile (fun c => c ≠ '\n') ++ '\n' :: rest := by
      rw [← heq, List.takeWhile_append_dropWhile]
    rw [nlOk_suffix_steps_none hnl hs hsplit]
    rfl
  · rfl

theorem candW_steps_none {x : List Char} (hnl : NlOk x [])
    {afterT : List Char} (hs : afterT <:+ x)
    (hw : (afterT.takeWhile isJsWs).any (fun c => c = '\n') = true) :
    rxStepsContAfterNl (afterT.drop (afterT.takeWhile isJsWs).length) = none := by
  rw [drop_takeWhile_length]
  obtain ⟨c, hc, hceq⟩ := List.any_eq_true.mp hw
  have hcnl : c = '\n' := by simpa using hceq
  subst hcnl
  obtain ⟨w1, w2, hw12⟩ := List.append_of_mem hc
  have hsp : List.takeWhile isJsWs afterT ++ List.dropWhile isJsWs afterT = afterT :=
    List.takeWhile_append_dropWhile isJsWs afterT
  have hsplit : afterT = w1 ++ '\n' :: (w2 ++ afterT.dropWhile isJsWs) := by
    conv_lhs => rw [← hsp]
    rw [hw12]
    simp [List.append_assoc]
  have h2 := nlOk_suffix_steps_none hnl hs hsplit
  have hw2ws : dropWs w2 = [] := by
    rw [dropWs, List.dropWhile_eq_nil_iff]
    intro e he
    have : e ∈ afterT.takeWhile isJsWs := by
      rw [hw12]
      exact List.mem_append_right w1 (List.mem_cons_of_mem _ he)
    exact List.mem_takeWhile_imp this
  rwa [rxSteps_append_allWs hw2ws] at h2

theorem rxMatchAt_none_of_nlOk {x : List Char} (hnl : NlOk x [])
    {l : List Char} (hsfx : l <:+ x) : rxMatchAt l = none := by
  simp only [rxMatchAt]
  split
  · rename_i r1 heq1
    have hr1 : r1 <:+ x :=
      ((List.suffix_cons '.' r1).trans (dropDigits1_suffix heq1)).trans hsfx
    split
    · rename_i hTitle
      have hafterW : ((dropWs r1).drop 6).drop
          (((dropWs r1).drop 6).takeWhile isJsWs).length <:+ x :=
        ((List.drop_suffix _ _).trans ((List.drop_suffix 6 _).trans
          ((List.dropWhile_suffix isJsWs).trans hr1)))
      have hafterT : (dropWs r1).drop 6 <:+ x :=
        (List.drop_suffix 6 _).trans ((List.dropWhile_suffix isJsWs).trans hr1)
      have hc1 := cand1_none hnl hafterW
      split
      · rename_i titleRaw afterSteps heq2
        exfalso
        rw [hc1] at heq2
        by_cases hw : (((dropWs r1).drop 6).takeWhile isJsWs).any (fun c => c = '\n') = true
        · rw [if_pos hw] at heq2
          rw [candW_steps_none hnl hafterT hw] at heq2
          simp [Option.orElse] at heq2
        · rw [if_neg hw] at heq2
          simp [Option.orElse] at heq2
      · rfl
    · rfl
  · rfl

theorem rxScanAll_nil_of_nlOk {x : List Char} (hnl : NlOk x []) :
    ∀ (fuel l : List Char), l <:+ x → rxScanAll fuel l = []
  | fuel, [], _ => by cases fuel <;> rfl
  | [], c :: rest, _ => rfl
  | f :: fuel, c :: rest, hs => by
    rw [rxScanAll]
    rw [rxMatchAt_none_of_nlOk hnl hs]
    exact rxScanAll_nil_of_nlOk hnl fuel rest ((List.suffix_cons c rest).trans hs)

theorem regexStrategy_fallback_nil (p : Payload) :
    regexStrategyTestCases (generateFallbackTestCases p) = [] := by
  unfold regexStrategyTestCases
  exact rxScanAll_nil_of_nlOk (fallback_nlOk p) _ _ (List.suffix_refl _)

/-! ### Both fallback-relevant strategies push only non-empty titles -/

theorem parseMarkdownBlock_title_ne {b : List Char} {tc : TestCase}
    (h : parseMarkdownBlock b = some tc) : tc.title ≠ "" := by
  simp only [parseMarkdownBlock] at h
  split at h
  · exact absurd h (by simp)
  · split at h
    · exact absurd h (by simp)
    · rename_i hT
      rw [Option.some.injEq] at h
      subst h
      intro hcon
      apply hT
      rw [List.isEmpty_iff]
      exact congrArg String.data hcon

theorem parseMarkdown_titles {s : String} {tc : TestCase}
    (h : tc ∈ parseMarkdownTestCases s) : tc.title ≠ "" := by
  simp only [parseMarkdownTestCases] at h
  obtain ⟨b, _, hb⟩ := List.mem_filterMap.mp h
  exact parseMarkdownBlock_title_ne hb

theorem genBlockRecord_title_ne {b : List Char} {tc : TestCase}
    (h : genBlockRecord b = some tc) : tc.title ≠ "" := by
  simp only [genBlockRecord] at h
  split at h
  · exact absurd h (by simp)
  · split at h
    · exact absurd h (by simp)
    · split at h
      · exact absurd h (by simp)
      · rename_i hT
        rw [Option.some.injEq] at h
        subst h
        intro hcon
        apply hT
        rw [List.isEmpty_iff]
        exact congrArg String.data hcon

/-! ### The first paragraph of the fallback output -/

theorem splitBlank_headD : ∀ (fuel acc l : List Char),
    ∃ t, (splitBlank fuel acc l).headD [] = acc.reverse ++ t
  | fuel, acc, [] => by
    cases fuel <;> exact ⟨[], by simp [splitBlank]⟩
  | [], acc, c :: rest => ⟨c :: rest, by simp [splitBlank]⟩
  | f :: fuel, acc, c :: rest => by
    rw [splitBlank]
    by_cases hc : c = '\n'
    · rw [if_pos hc]
      cases hli : lastNlIdx (rest.takeWhile isJsWs) with
      | some i => exact ⟨[], by simp⟩
      | none =>
        obtain ⟨t, ht⟩ := splitBlank_headD fuel ('\n' :: acc) rest
        exact ⟨'\n' :: t, by rw [ht]; simp⟩
    · rw [if_neg hc]
      obtain ⟨t, ht⟩ := splitBlank_headD fuel (c :: acc) rest
      exact ⟨c :: t, by rw [ht]; simp⟩

theorem splitBlank_ne_nil : ∀ (fuel acc l : List Char), splitBlank fuel acc l ≠ []
  | fuel, acc, [] => by cases fuel <;> simp [splitBlank]
  | [], acc, c :: rest => by simp [splitBlank]
  | f :: fuel, acc, c :: rest => by
    rw [splitBlank]
    by_cases hc : c = '\n'
    · rw [if_pos hc]
      cases hli : lastNlIdx (rest.takeWhile isJsWs) with
      | some i => simp
      | none => exact splitBlank_ne_nil fuel ('\n' :: acc) rest
    · rw [if_neg hc]
      exact splitBlank_ne_nil fuel (c :: acc) rest

theorem splitBlank_headD_pre : ∀ (pre : List Char), '\n' ∉ pre →
    ∀ (fuel acc l : List Char), ∃ t,
      (splitBlank fuel acc (pre ++ l)).headD [] = acc.reverse ++ (pre ++ t)
  | [], _, fuel, acc, l => by
    simpa using splitBlank_headD fuel acc l
  | c :: pre, hpre, fuel, acc, l => by
    have hc : c ≠ '\n' := fun h => hpre (h ▸ List.mem_cons_self c pre)
    cases fuel with
    | nil =>
      refine ⟨l, ?_⟩
      simp [splitBlank, List.append_assoc]
    | cons f fuel =>
      rw [List.cons_append, splitBlank, if_neg hc]
      obtain ⟨t, ht⟩ := splitBlank_headD_pre pre
        (fun hm => hpre (List.mem_cons_of_mem c hm)) fuel (c :: acc) l
      refine ⟨t, ?_⟩
      rw [ht]
      simp

theorem headD_mem {l : List (List Char)} (h : l ≠ []) : l.headD [] ∈ l := by
  cases l with
  | nil => exact absurd rfl h
  | cons a t => exact List.mem_cons_self a t

/-! ### The generic strategy accepts the first fallback paragraph -/

theorem isPreCI_append_of_le {p a : List Char} (h : p.length ≤ a.length) :
    ∀ t, isPreCI p (a ++ t) = isPreCI p a := by
  induction p generalizing a with
  | nil => intro t; rfl
  | cons pc ps ih =>
    intro t
    cases a with
    | nil => simp at h
    | cons c cs =>
      rw [List.cons_append]
      show (decide (pc.toLower = c.toLower) && isPreCI ps (cs ++ t))
        = (decide (pc.toLower = c.toLower) && isPreCI ps cs)
      rw [ih (by simpa using h) t]

theorem dropWs_cons_pos {c : Char} (h : isJsWs c = true) (l : List Char) :
    dropWs (c :: l) = dropWs l := by
  unfold dropWs
  rw [List.dropWhile_cons, h]
  simp

theorem jsTrim_keep_front (c0 ce : Char) (h0 : isJsWs c0 = false)
    (hce : isJsWs ce = false) (mid t : List Char) :
    ∃ t2, jsTrim ((c0 :: (mid ++ [ce])) ++ t) = (c0 :: (mid ++ [ce])) ++ t2 := by
  unfold jsTrim
  have hL : List.dropWhile isJsWs ((c0 :: (mid ++ [ce])) ++ t)
      = (c0 :: (mid ++ [ce])) ++ t := by
    rw [List.cons_append]
    exact dropWs_cons_neg h0 _
  rw [hL]
  have hrev : ((c0 :: (mid ++ [ce])) ++ t).reverse
      = t.reverse ++ (ce :: (mid.reverse ++ [c0])) := by
    rw [List.reverse_append, List.reverse_cons, List.reverse_append]
    simp
  rw [hrev, List.dropWhile_append]
  by_cases hA : (t.reverse.dropWhile isJsWs).isEmpty = true
  · rw [if_pos hA]
    have hdce : List.dropWhile isJsWs (ce :: (mid.reverse ++ [c0]))
        = ce :: (mid.reverse ++ [c0]) := dropWs_cons_neg hce _
    rw [hdce]
    refine ⟨[], ?_⟩
    rw [List.append_nil, List.reverse_cons, List.reverse_append]
    simp
  · rw [if_neg hA]
    refine ⟨(t.reverse.dropWhile isJsWs).reverse, ?_⟩
    rw [List.reverse_append, List.reverse_cons, List.reverse_append]
    simp

theorem jsTrim_head_nonws_ne_nil {c : Char} (hc : isJsWs c = false) (l : List Char) :
    jsTrim (c :: l) ≠ [] := by
  unfold jsTrim
  rw [show List.dropWhile isJsWs (c :: l) = c :: l from dropWs_cons_neg hc l]
  rw [List.reverse_cons, List.dropWhile_append]
  by_cases hA : (l.reverse.dropWhile isJsWs).isEmpty = true
  · rw [if_pos hA]
    rw [show List.dropWhile isJsWs [c] = [c] from dropWs_cons_neg hc []]
    simp
  · rw [if_neg hA]
    rw [List.isEmpty_iff] at hA
    simp [hA]

theorem genBlockRecord_tc1_isSome (t2 : List Char) :
    (genBlockRecord ("Test Case 1: Verify ".data ++ t2)).isSome = true := by
  obtain ⟨t3, hjt⟩ := jsTrim_keep_front 'T' 'y'
    (by decide) (by decide) "est Case 1: Verif".data (' ' :: t2)
  have hjt2 : jsTrim ("Test Case 1: Verify ".data ++ t2)
      = "Test Case 1: Verify".data ++ t3 := by
    have h1 : "Test Case 1: Verify ".data ++ t2
        = ('T' :: ("est Case 1: Verif".data ++ ['y'])) ++ (' ' :: t2) := rfl
    have h2 : ('T' :: ("est Case 1: Verif".data ++ ['y'])) ++ t3
        = "Test Case 1: Verify".data ++ t3 := rfl
    rw [h1, hjt, h2]
  have hemp : ("Test Case 1: Verify".data ++ t3).isEmpty = false := by
    rw [show "Test Case 1: Verify".data ++ t3
      = 'T' :: ("est Case 1: Verify".data ++ t3) from rfl]
    rfl
  have hskipF : genIntroSkip ("Test Case 1: Verify".data ++ t3) = false := by
    have e1 : isPreCI "sure!".data ("Test Case 1: Verify".data ++ t3)
        = isPreCI "sure!".data "Test Case 1: Verify".data :=
      isPreCI_append_of_le (by decide) t3
    have e2 : isPreCI "here are".data ("Test Case 1: Verify".data ++ t3)
        = isPreCI "here are".data "Test Case 1: Verify".data :=
      isPreCI_append_of_le (by decide) t3
    have e3 : isPreCI ("i" ++ String.mk [aposC] ++ "ll create").data
        ("Test Case 1: Verify".data ++ t3)
        = isPreCI ("i" ++ String.mk [aposC] ++ "ll create").data
          "Test Case 1: Verify".data :=
      isPreCI_append_of_le (by decide) t3
    have e4 : isPreCI "based on".data ("Test Case 1: Verify".data ++ t3)
        = isPreCI "based on".data "Test Case 1: Verify".data :=
      isPreCI_append_of_le (by decide) t3
    unfold genIntroSkip
    rw [e1, e2, e3, e4]
    decide
  have hdd : dropDigits1 ("Test Case 1: Verify".data ++ t3) = none := by
    rw [show "Test Case 1: Verify".data ++ t3
      = 'T' :: ("est Case 1: Verify".data ++ t3) from rfl]
    rw [dropDigits1]
    rw [if_neg (show ¬(isDigitC 'T' = true) from by decide)]
  have hsndw : stripNumDotWsOpt ("Test Case 1: Verify".data ++ t3) = none := by
    unfold stripNumDotWsOpt
    rw [hdd]
  have hstc : stripTestCaseOpt ("Test Case 1: Verify".data ++ t3)
      = some ("1: Verify".data ++ t3) := by
    unfold stripTestCaseOpt
    have e5 : isPreCI "test case".data ("Test Case 1: Verify".data ++ t3)
        = isPreCI "test case".data "Test Case 1: Verify".data :=
      isPreCI_append_of_le (by decide) t3
    rw [e5, if_pos (by decide)]
    have hdrop : ("Test Case 1: Verify".data ++ t3).drop 9
        = " 1: Verify".data ++ t3 := by
      rw [List.drop_append_of_le_length (by decide)]
      rw [show ("Test Case 1: Verify".data.drop 9) = " 1: Verify".data from by decide]
    rw [hdrop]
    have hcc : consColonWs (" 1: Verify".data ++ t3) = "1: Verify".data ++ t3 := by
      show dropWs (' ' :: ("1: Verify".data ++ t3)) = "1: Verify".data ++ t3
      rw [dropWs_cons_pos (by decide)]
      rw [show "1: Verify".data ++ t3 = '1' :: (": Verify".data ++ t3) from rfl]
      exact dropWs_cons_neg (by decide) _
    rw [hcc]
  have htl : takeLine1 ("1: Verify".data ++ t3)
      = some ('1' :: (": Verify".data ++ t3).takeWhile (fun c => c ≠ '\n')) := by
    simp only [takeLine1]
    rw [show "1: Verify".data ++ t3 = '1' :: (": Verify".data ++ t3) from rfl]
    rw [List.takeWhile_cons]
    rw [show (decide ((('1' : Char)) ≠ '\n')) = true from by decide]
    rw [if_pos rfl]
    simp only [List.isEmpty_cons]
    rw [if_neg (by decide)]
  have htr : genTitleRaw ("Test Case 1: Verify".data ++ t3)
      = some ('1' :: (": Verify".data ++ t3).takeWhile (fun c => c ≠ '\n')) := by
    simp only [genTitleRaw, hsndw, hstc, htl]
    rfl
  simp only [genBlockRecord, hjt2]
  split
  · rename_i hcond
    rw [hemp] at hcond
    exact absurd hcond (by decide)
  · split
    · rename_i hskip
      rw [hskipF] at hskip
      exact absurd hskip (by decide)
    · split
      · rename_i hT
        rw [htr] at hT
        rw [List.isEmpty_iff] at hT
        exact absurd hT (jsTrim_head_nonws_ne_nil (by decide) _)
      · rfl

theorem extractGeneric_fallback_any (p : Payload) :
    ((extractGenericTestCases (generateFallbackTestCases p)).any
      fun tc => !tc.title.isEmpty) = true := by
  obtain ⟨rest, hdec⟩ := fallback_out_decomp p
  simp only [extractGenericTestCases]
  rw [hdec]
  obtain ⟨t, ht⟩ := splitBlank_headD_pre "Test Case 1: Verify ".data (by decide)
    ("Test Case 1: Verify ".data ++ rest) [] rest
  simp only [List.reverse_nil, List.nil_append] at ht
  have hmem0 := headD_mem (splitBlank_ne_nil
    ("Test Case 1: Verify ".data ++ rest) [] ("Test Case 1: Verify ".data ++ rest))
  rw [ht] at hmem0
  obtain ⟨tc, htc⟩ := Option.isSome_iff_exists.mp (genBlockRecord_tc1_isSome t)
  refine List.any_eq_true.mpr ⟨tc, List.mem_filterMap.mpr ⟨_, hmem0, htc⟩, ?_⟩
  have hne := genBlockRecord_title_ne htc
  cases hIE : tc.title.isEmpty with
  | true => exact absurd ((String.isEmpty_iff tc.title).mp hIE) hne
  | false => rfl

theorem fallback_parse_any (p : Payload) :
    ((parseTestCases (generateFallbackTestCases p)).any
      fun tc => !tc.title.isEmpty) = true := by
  obtain ⟨rest, hdec⟩ := fallback_out_decomp p
  have hne : generateFallbackTestCases p ≠ "" := by
    intro h
    have h2 := congrArg String.data h
    rw [hdec] at h2
    exact absurd h2 (by simp)
  simp only [parseTestCases]
  rw [if_neg hne]
  cases hmd : parseMarkdownTestCases (generateFallbackTestCases p) with
  | cons tc tcs =>
    simp only [List.isEmpty_cons, Bool.not_false]
    rw [if_pos trivial]
    have htitle : tc.title ≠ "" :=
      parseMarkdown_titles (by rw [hmd]; exact List.mem_cons_self tc tcs)
    refine List.any_eq_true.mpr ⟨tc, List.mem_cons_self tc tcs, ?_⟩
    cases hIE : tc.title.isEmpty with
    | true => exact absurd ((String.isEmpty_iff tc.title).mp hIE) htitle
    | false => rfl
  | nil =>
    simp only [List.isEmpty_nil, Bool.not_true]
    rw [if_neg (by decide)]
    rw [regexStrategy_fallback_nil p]
    rw [if_pos (show ([] : List TestCase).isEmpty = true from rfl)]
    exact extractGeneric_fallback_any p


/-- C1 (code_bug): the transition to `completed` is an unconditional
`storage.set` (`updateJob`), not a conditional write, so a job that became
terminal through the lazy-timeout poll is mutated afterwards by the
background task's late completion write: in the trace below the poll at
61001 persists `completed` with the fallback result and `timedOut = true`,
and the background write at 61002 then replaces the stored result and
clears the flag — contradicting the claimed immutability of a terminal
job's result. -/
theorem completed_job_result_overwritten_by_background_write :
    c1StTerminal.map Job.status = some .completed ∧
    c1StTerminal.map Job.result =
      some (some (.strVal (generateFallbackTestCases c1Payload))) ∧
    c1StTerminal.map Job.timedOut = some true ∧
    c1StAfterBg.map Job.status = some .completed ∧
    c1StAfterBg.map Job.result ≠ c1StTerminal.map Job.result ∧
    c1StAfterBg.map Job.timedOut = some false := by
  refine ⟨rfl, rfl, rfl, rfl, ?_, rfl⟩
  decide

/-- C2 (confirmed): polling a stored `processing` job whose `timeoutAt` is
set and has elapsed transitions it to `completed` with the fallback
generator's output for the job's payload and `timedOut = true`, persists
the updated job and returns the updated view; and on a terminal
(`completed` or `failed`) job `getJobStatus` leaves the store unchanged
and returns the same response at any two poll times. -/
theorem getJobStatus_timeout_fallback_and_terminal_idempotent
    (now now2 : Nat) (job : Job) :
    (job.status = .processing → job.timeoutAt ≠ 0 → now > job.timeoutAt →
      getJobStatus now (some job) =
        (⟨true, some .completed,
          some (.strVal (generateFallbackTestCases job.payload)), none, some true⟩,
         some { job with
           status := .completed
           result := some (.strVal (generateFallbackTestCases job.payload))
           timedOut := true
           completionTime := some now })) ∧
    (job.status = .completed ∨ job.status = .failed →
      (getJobStatus now (some job)).2 = some job ∧
      (getJobStatus now2 (some job)).1 = (getJobStatus now (some job)).1) := by
  constructor
  · intro h1 h2 h3
    simp [getJobStatus, h1, h2, h3]
  · rintro (h | h) <;> simp [getJobStatus, h]

/-- Witness for C2 at concrete inputs. -/
theorem getJobStatus_timeout_fallback_witness :
    (getJobStatus 60001 (some c2ProcJob)).1.status = some .completed ∧
    (getJobStatus 1 (some c2DoneJob)).1 = (getJobStatus 2 (some c2DoneJob)).1 := by
  constructor
  · rw [(getJobStatus_timeout_fallback_and_terminal_idempotent 60001 0 c2ProcJob).1
      rfl (by decide) (by decide)]
  · exact ((getJobStatus_timeout_fallback_and_terminal_idempotent 1 2 c2DoneJob).2
      (Or.inl rfl)).2.symm

/-- C3 counterexample: a non-2xx backend response is a failure of the
external generation call, yet the background task completes the job with
the generation client's canned error placeholder — not the fallback
generator's output — and without setting `timedOut`, contradicting the
claim that any failure yields fallback content with `timedOut = true`. -/
theorem generation_http_error_masked_without_timeout_flag :
    (generateTestCasesAsync (fun _ => none)
        (.respNotOk "500" "Internal Server Error" "boom") c3Payload 5000
        (some c3Job)).map Job.status = some .completed ∧
    (generateTestCasesAsync (fun _ => none)
        (.respNotOk "500" "Internal Server Error" "boom") c3Payload 5000
        (some c3Job)).map Job.timedOut = some false ∧
    (generateTestCasesAsync (fun _ => none)
        (.respNotOk "500" "Internal Server Error" "boom") c3Payload 5000
        (some c3Job)).map Job.result ≠
      some (some (.strVal (generateFallbackTestCases c3Payload))) := by
  refine ⟨rfl, rfl, ?_⟩
  decide

/-- C3 (corrected): for every generation outcome the background task
completes the job (never `failed`); an abort of the external call (the
45-second timeout) yields fallback content with `timedOut = true`, while a
non-2xx response is masked inside the generation client as a canned
explanatory test case and the job completes with that placeholder and
`timedOut` left unchanged; status `failed` arises only when a store
operation itself throws, and then the error message is attached. -/
theorem generateTestCasesAsync_error_policy
    (jp : String → Option (Option JsonTCVal)) (outcome : FetchOutcome)
    (payload : Payload) (now : Nat) (job0 : Job) (msg : String) :
    ((generateTestCasesAsync jp outcome payload now (some job0)).map Job.status =
      some .completed) ∧
    (∀ m, outcome = .tryThrown "AbortError" m →
      generateTestCasesAsync jp outcome payload now (some job0) =
        some { job0 with
          status := .completed
          result := some (.strVal (generateFallbackTestCases payload))
          timedOut := true
          completionTime := some now }) ∧
    (∀ st stt body, outcome = .respNotOk st stt body →
      generateTestCasesAsync jp outcome payload now (some job0) =
        some { job0 with
          status := .completed
          result := some (errorTestCases
            ("API request failed: " ++ st ++ " " ++ stt ++ "\n" ++ body))
          completionTime := some now }) ∧
    ((generateTestCasesAsyncStoreFail msg now (some job0)).map Job.status =
        some .failed ∧
      (generateTestCasesAsyncStoreFail msg now (some job0)).map Job.error =
        some (some msg)) := by
  refine ⟨?_, ?_, ?_, rfl, rfl⟩
  · cases outcome with
    | respOk success error test_cases =>
      cases success <;> cases test_cases <;>
        simp [generateTestCasesAsync, generateDirectTestCases, bgCompleteSuccess]
    | respNotOk st stt body =>
      simp [generateTestCasesAsync, generateDirectTestCases, bgCompleteSuccess]
    | tryThrown name m =>
      by_cases h : name = "AbortError" <;>
        simp [generateTestCasesAsync, generateDirectTestCases, h,
          bgCompleteSuccess, bgCompleteFallback]
  · rintro m rfl
    simp [generateTestCasesAsync, generateDirectTestCases, bgCompleteFallback]
  · rintro st stt body rfl
    simp [generateTestCasesAsync, generateDirectTestCases, bgCompleteSuccess,
      parsedOfTestCases, errorTestCases]

/-- Witness for C3 at concrete inputs. -/
theorem generateTestCasesAsync_error_policy_witness :
    (generateTestCasesAsync (fun _ => none) (.tryThrown "AbortError" "x")
        c3Payload 7 (some c3Job)).map Job.timedOut = some true ∧
    (generateTestCasesAsyncStoreFail "boom" 7 (some c3Job)).map Job.status =
      some .failed := by
  constructor
  · rw [(generateTestCasesAsync_error_policy (fun _ => none)
      (.tryThrown "AbortError" "x") c3Payload 7 c3Job "boom").2.1 "x" rfl]
    rfl
  · exact (generateTestCasesAsync_error_policy (fun _ => none)
      (.tryThrown "AbortError" "x") c3Payload 7 c3Job "boom").2.2.2.1

/-- C4 counterexample: raw text consisting of a single plain sentence is
not parsed to an empty list — the markdown-style strategy accepts the
sentence as a title-only test case. -/
theorem parseTestCases_plain_sentence_nonempty :
    parseTestCases "Hello world" = [⟨"Hello world", [], ""⟩] ∧
    parseTestCases "Hello world" ≠ [] := by
  refine ⟨by decide, by decide⟩

/-- C4 (corrected): `parseTestCases` applies the markdown-style,
structured-regex and generic-paragraph strategies in that order and
returns the first non-empty result, and returns the empty list when all
three strategies produce nothing (for example on whitespace-only input);
but a single plain sentence is not such a case. -/
theorem parseTestCases_cascade_first_nonempty :
    (∀ s : String, parseTestCases s =
      (if parseMarkdownTestCases s ≠ [] then parseMarkdownTestCases s
       else if regexStrategyTestCases s ≠ [] then regexStrategyTestCases s
       else extractGenericTestCases s)) ∧
    parseTestCases "   " = [] := by
  constructor
  · intro s
    by_cases h : s = ""
    · subst h; decide
    · by_cases h1 : parseMarkdownTestCases s = []
      · by_cases h2 : regexStrategyTestCases s = [] <;>
          simp [parseTestCases, regexStrategyTestCases, h, h1, h2]
      · simp [parseTestCases, h, h1]
  · decide

/-- C5 (code_bug): the html mode of `formatTestCases` interpolates the
user-supplied title, steps and expected result without any escaping, so
raw `<` and `>` characters that originate in the parsed content of the
input string survive into the html output — contradicting the claimed
escaping invariant. -/
theorem formatTestCases_html_mode_unescaped :
    parseTestCases "Click <script>alert(1)</script> now" =
      [⟨"Click <script>alert(1)</script> now", [], ""⟩] ∧
    "<script>".data <:+:
      (formatTestCases
        (some (parseTestCases "Click <script>alert(1)</script> now"))
        "html").data := by
  refine ⟨by decide, by decide⟩

/-- C6 counterexample: a single test case formatted by `formatTestCases`
in markdown mode does not parse back to a single test case. -/
theorem markdown_roundtrip_count_not_preserved :
    (parseTestCases (formatTestCases
      (some [⟨"Login works", ["Open the page", "Submit credentials"],
        "User is logged in"⟩]) "markdown")).length ≠ 1 := by
  decide

/-- C6 (corrected): the markdown headers emitted by `formatTestCases`
(`## 1. <title>`, `### Test Steps:`, `### Expected Result:`) are not
recognized by the markdown-style or structured-regex strategies, so the
generic-paragraph strategy turns each formatted test case into three
records — one per paragraph — instead of recovering one record per input
case: the formatter-produced single case above parses back to exactly the
three records below (the original steps reappear in the second record and
the original expected result in the third). -/
theorem markdown_roundtrip_yields_three_generic_records :
    parseTestCases (formatTestCases
      (some [⟨"Login works", ["Open the page", "Submit credentials"],
        "User is logged in"⟩]) "markdown") =
      [⟨"## 1. Login works", ["No specific steps provided"],
         "No specific expected result provided"⟩,
       ⟨"### Test Steps:", ["Open the page", "Submit credentials"],
         "No specific expected result provided"⟩,
       ⟨"### Expected Result:", ["No specific steps provided"],
         "User is logged in"⟩] := by
  decide

/-- C7 counterexample: for the login scenario the fallback generator emits
three test-case blocks, but parsing that output back does not yield three
test cases. -/
theorem fallback_scenario_roundtrip_count_mismatch :
    (generateFallbackBlocks scenarioPayload).length = 3 ∧
    (parseTestCases (generateFallbackTestCases scenarioPayload)).length ≠ 3 := by
  refine ⟨by decide, by decide⟩

/-- C7 (corrected): for every payload with a non-empty (JS-truthy)
description, `parse(fallbackGenerate(payload))` yields at least one test
case whose title is non-empty — proved universally: the structured-regex
strategy never matches the fallback output, and the markdown-style and
generic-paragraph strategies push only non-empty titles, the generic one
always accepting the leading `Test Case 1: Verify ...` paragraph.  The
claim's scenario round-trip count, however, is false: for the login
scenario the generator emits exactly 3 blocks while parsing the output
back yields exactly 1 test case (the markdown-style strategy folds the
whole output into a single block), not the same count. -/
theorem fallback_universal_nonempty_title_and_scenario_counts :
    (∀ p : Payload, strTruthy p.description = true →
      ((parseTestCases (generateFallbackTestCases p)).any
        fun tc => !tc.title.isEmpty) = true) ∧
    (generateFallbackBlocks scenarioPayload).length = 3 ∧
    (parseTestCases (generateFallbackTestCases scenarioPayload)).length = 1 := by
  refine ⟨fun p _ => fallback_parse_any p, by decide, by decide⟩

/-- Witness for C7: the universal part applied at the scenario payload,
whose description is JS-truthy. -/
theorem fallback_universal_nonempty_title_witness :
    strTruthy scenarioPayload.description = true ∧
    ((parseTestCases (generateFallbackTestCases scenarioPayload)).any
      fun tc => !tc.title.isEmpty) = true :=
  ⟨by decide,
   fallback_universal_nonempty_title_and_scenario_counts.1 scenarioPayload (by decide)⟩

/-- C8 (confirmed): `startTestCaseGenerationJob` fails with the validation
error exactly when the description or the acceptance-criteria field is
missing or empty (JS-falsy), before any job record is stored; for every
valid payload it generates the job id from the current time and the
random suffix, stores a job with status `pending` (the generation task is
scheduled, not awaited, so the stored job is still `pending` when the id
is returned) with a 60-second timeout budget, and returns the job id. -/
theorem startTestCaseGenerationJob_spec (now : Nat) (rand : String) (p : Payload) :
    ((strTruthy p.description = false ∨ strTruthy p.acceptance_criteria = false) ↔
      startTestCaseGenerationJob now rand p =
        .error "Missing required fields: description and acceptance_criteria") ∧
    (strTruthy p.description = true → strTruthy p.acceptance_criteria = true →
      startTestCaseGenerationJob now rand p =
        .ok ("job_" ++ toString now ++ "_" ++ rand,
          { status := .pending
            payload := p
            startTime := now
            timeoutAt := now + 60000
            result := none
            timedOut := false
            error := none
            completionTime := none })) := by
  cases hd : strTruthy p.description <;>
    cases ha : strTruthy p.acceptance_criteria <;>
      simp [startTestCaseGenerationJob, hd, ha]

/-- Witness for C8 at concrete inputs. -/
theorem startTestCaseGenerationJob_spec_witness :
    startTestCaseGenerationJob 5 "r7" ⟨some "desc", some "- ac"⟩ =
      .ok ("job_5_r7",
        { status := .pending
          payload := ⟨some "desc", some "- ac"⟩
          startTime := 5
          timeoutAt := 60005
          result := none
          timedOut := false
          error := none
          completionTime := none }) :=
  (startTestCaseGenerationJob_spec 5 "r7" ⟨some "desc", some "- ac"⟩).2 rfl rfl

/-- C9 (confirmed): the fallback generator and the formatter are pure
functions of their arguments in this embedding — equal payloads give
equal fallback strings and equal test-case lists with equal modes give
equal formatted strings; there is no other input (store, clock, network
or randomness) in their signatures. -/
theorem fallback_and_formatter_deterministic :
    (∀ p q : Payload, p = q →
      generateFallbackTestCases p = generateFallbackTestCases q) ∧
    (∀ (t u : Option (List TestCase)) (m n : String), t = u → m = n →
      formatTestCases t m = formatTestCases u n) := by
  constructor
  · intro p q h; rw [h]
  · intro t u m n h1 h2; rw [h1, h2]

/-- Witness for C9 at concrete inputs. -/
theorem fallback_and_formatter_deterministic_witness :
    generateFallbackTestCases ⟨some "a b c d", some "- x"⟩ =
      generateFallbackTestCases ⟨some "a b c d", some "- x"⟩ ∧
    formatTestCases (some [⟨"t", ["s"], "e"⟩]) "text" =
      formatTestCases (some [⟨"t", ["s"], "e"⟩]) "text" :=
  ⟨fallback_and_formatter_deterministic.1 ⟨some "a b c d", some "- x"⟩
      ⟨some "a b c d", some "- x"⟩ rfl,
   fallback_and_formatter_deterministic.2 (some [⟨"t", ["s"], "e"⟩])
      (some [⟨"t", ["s"], "e"⟩]) "text" "text" rfl rfl⟩

/-- C10 (confirmed): for every format mode — including unrecognized ones —
`formatTestCases` returns the empty string when its test-case argument is
missing (`null`/`undefined`) or an empty list. -/
theorem formatTestCases_empty_guard (mode : String) :
    formatTestCases none mode = "" ∧ formatTestCases (some []) mode = "" :=
  ⟨rfl, rfl⟩

end SmartTestCase
